/-
Verification of the Ewald summation core of the lumol molecular simulation
engine, against its natural-language specification.

The development shallowly embeds the code of
src/lumol-core/src/energy/global/ewald.rs over real arithmetic: f64 values
become real numbers, fallible code (assertions and panics) returns Option,
and the stateful solver becomes explicit state passing on an Ewald record.
Supporting primitives whose sources are not part of the provided tree
(Vector3D helpers, Matrix3, the complex type, UnitCell, the pair
restriction, erf and erfc, and the Coulomb constant) are modelled from the
specification, as marked in their doc comments.
-/
import Mathlib

noncomputable section

open scoped Classical

/-- Real 3D vector, translated from the Vector3D type of the repository
(three f64 components become three reals). -/
structure Vector3D where
  x : ℝ
  y : ℝ
  z : ℝ

/-- Zero vector. -/
def Vector3D.zero : Vector3D := ⟨0, 0, 0⟩

instance : Add Vector3D := ⟨fun a b => ⟨a.x + b.x, a.y + b.y, a.z + b.z⟩⟩

instance : Sub Vector3D := ⟨fun a b => ⟨a.x - b.x, a.y - b.y, a.z - b.z⟩⟩

instance : Neg Vector3D := ⟨fun a => ⟨-a.x, -a.y, -a.z⟩⟩

instance : SMul ℝ Vector3D := ⟨fun c a => ⟨c * a.x, c * a.y, c * a.z⟩⟩

/-- Scalar (dot) product of two vectors, translated from the Mul impl of
Vector3D. -/
def Vector3D.dot (a b : Vector3D) : ℝ := a.x * b.x + a.y * b.y + a.z * b.z

/-- Squared euclidean norm, translated from Vector3D::norm2. -/
def Vector3D.norm2 (a : Vector3D) : ℝ := a.dot a

/-- Euclidean norm, translated from Vector3D::norm. -/
def Vector3D.norm (a : Vector3D) : ℝ := Real.sqrt a.norm2

/-- Modelled from the spec: Vector3D::max (whose source is not in the
provided tree) is the maximum norm of the vector, used by the kmax2 policy
as max‖k(1,1,1)‖. -/
def Vector3D.max (a : Vector3D) : ℝ := Max.max |a.x| (Max.max |a.y| |a.z|)

/-- Real 3x3 matrix, translated from the Matrix3 type of the repository. -/
structure Matrix3 where
  m11 : ℝ
  m12 : ℝ
  m13 : ℝ
  m21 : ℝ
  m22 : ℝ
  m23 : ℝ
  m31 : ℝ
  m32 : ℝ
  m33 : ℝ

/-- Identity matrix, translated from Matrix3::one. -/
def Matrix3.one : Matrix3 := ⟨1, 0, 0, 0, 1, 0, 0, 0, 1⟩

instance : Add Matrix3 :=
  ⟨fun a b => ⟨a.m11 + b.m11, a.m12 + b.m12, a.m13 + b.m13,
               a.m21 + b.m21, a.m22 + b.m22, a.m23 + b.m23,
               a.m31 + b.m31, a.m32 + b.m32, a.m33 + b.m33⟩⟩

instance : SMul ℝ Matrix3 :=
  ⟨fun c a => ⟨c * a.m11, c * a.m12, c * a.m13,
               c * a.m21, c * a.m22, c * a.m23,
               c * a.m31, c * a.m32, c * a.m33⟩⟩

/-- Matrix transposition. -/
def Matrix3.transposed (a : Matrix3) : Matrix3 :=
  ⟨a.m11, a.m21, a.m31, a.m12, a.m22, a.m32, a.m13, a.m23, a.m33⟩

/-- Determinant of a 3x3 matrix. -/
def Matrix3.det (a : Matrix3) : ℝ :=
  a.m11 * (a.m22 * a.m33 - a.m23 * a.m32)
  - a.m12 * (a.m21 * a.m33 - a.m23 * a.m31)
  + a.m13 * (a.m21 * a.m32 - a.m22 * a.m31)

/-- Matrix inverse through the adjugate divided by the determinant. -/
def Matrix3.inverse (a : Matrix3) : Matrix3 :=
  (1 / a.det) •
    (⟨a.m22 * a.m33 - a.m23 * a.m32, a.m13 * a.m32 - a.m12 * a.m33, a.m12 * a.m23 - a.m13 * a.m22,
      a.m23 * a.m31 - a.m21 * a.m33, a.m11 * a.m33 - a.m13 * a.m31, a.m13 * a.m21 - a.m11 * a.m23,
      a.m21 * a.m32 - a.m22 * a.m31, a.m12 * a.m31 - a.m11 * a.m32, a.m11 * a.m22 - a.m12 * a.m21⟩ : Matrix3)

/-- Matrix acting on a column vector. -/
def Matrix3.mulVec (a : Matrix3) (v : Vector3D) : Vector3D :=
  ⟨a.m11 * v.x + a.m12 * v.y + a.m13 * v.z,
   a.m21 * v.x + a.m22 * v.y + a.m23 * v.z,
   a.m31 * v.x + a.m32 * v.y + a.m33 * v.z⟩

/-- Tensorial (outer) product of two vectors, translated from
Vector3D::tensorial. -/
def Vector3D.tensorial (a b : Vector3D) : Matrix3 :=
  ⟨a.x * b.x, a.x * b.y, a.x * b.z,
   a.y * b.x, a.y * b.y, a.y * b.z,
   a.z * b.x, a.z * b.y, a.z * b.z⟩

/-- Rounding to the nearest integer with ties away from zero, the semantics
of f64::round used by the nearest-image reduction. -/
def roundAway (t : ℝ) : ℝ :=
  if 0 ≤ t then (⌊t + 1 / 2⌋ : ℤ) else -((⌊-t + 1 / 2⌋ : ℤ) : ℝ)

/-- Modelled from the spec: the Gauss error function provided to the code
by the external special crate and re-exported in math.rs. -/
def erf (t : ℝ) : ℝ :=
  2 / Real.sqrt Real.pi * ∫ s in (0:ℝ)..t, Real.exp (-(s ^ 2))

/-- Modelled from the spec: the complementary error function. -/
def erfc (t : ℝ) : ℝ := 1 - erf t

/-- Modelled from the spec: the Coulomb constant 4 pi epsilon_0 in the
internal unit system of the engine. Its source (consts.rs) is not in the
provided tree and no claim depends on its numerical value, only on it
being a fixed positive constant, so the model takes 1. -/
def FOUR_PI_EPSILON_0 : ℝ := 1

/-- Modelled from the spec: the 2 over square root of pi constant used by
the force kernels. -/
def FRAC_2_SQRT_PI : ℝ := 2 / Real.sqrt Real.pi

/-- Shape tag of a unit cell, modelled from the spec (Infinite,
Orthorhombic or Triclinic). -/
inductive CellShape where
  | Infinite : CellShape
  | Orthorhombic : CellShape
  | Triclinic : CellShape
deriving DecidableEq

/-- Modelled from the spec: a lattice given by three edge vectors (the rows
of the matrix) and its classification tag. -/
structure UnitCell where
  shape : CellShape
  matrix : Matrix3

/-- Modelled from the spec: the cubic cell with edge length given. -/
def UnitCell.cubic (length : ℝ) : UnitCell :=
  ⟨CellShape.Orthorhombic, ⟨length, 0, 0, 0, length, 0, 0, 0, length⟩⟩

/-- Cell volume, the determinant of the edge-vector matrix. -/
def UnitCell.volume (c : UnitCell) : ℝ := c.matrix.det

/-- Modelled from the spec: the reciprocal k-vector
k(ijk) = 2 pi B (i,j,k), with B the inverse of the real-space matrix
transposed. -/
def UnitCell.k_vector (c : UnitCell) (v : Vector3D) : Vector3D :=
  (2 * Real.pi) • (c.matrix.transposed.inverse.mulVec v)

/-- Fractional coordinates of a cartesian vector. -/
def UnitCell.fractional (c : UnitCell) (v : Vector3D) : Vector3D :=
  c.matrix.transposed.inverse.mulVec v

/-- Cartesian coordinates of a fractional vector. -/
def UnitCell.cartesian (c : UnitCell) (v : Vector3D) : Vector3D :=
  c.matrix.transposed.mulVec v

/-- Componentwise reduction of fractional coordinates to the primary
cell, subtracting the rounded value. -/
def fracReduce (w : Vector3D) : Vector3D :=
  ⟨w.x - roundAway w.x, w.y - roundAway w.y, w.z - roundAway w.z⟩

/-- Modelled from the spec: the nearest-image reduction of a vector, the
translation of the vector into the primary cell that minimizes its norm,
through rounding of the fractional coordinates. Infinite cells apply no
reduction. -/
def UnitCell.vector_image (c : UnitCell) (v : Vector3D) : Vector3D :=
  match c.shape with
  | CellShape.Infinite => v
  | _ => c.cartesian (fracReduce (c.fractional v))

/-- Modelled from the spec: the nearest-image distance between two points. -/
def UnitCell.distance (c : UnitCell) (a b : Vector3D) : ℝ :=
  (c.vector_image (b - a)).norm

/-- Modelled from the spec: the read-only configuration view consumed by
the Ewald core, with dense particle indices below size, a charge and a
position column, and an ordered partition of the particle indices into
molecules. -/
structure Configuration where
  cell : UnitCell
  size : ℕ
  charge : ℕ → ℝ
  position : ℕ → Vector3D
  molecules : List (List ℕ)

/-- Nearest-image distance between two particles of a configuration. -/
def Configuration.distance (cfg : Configuration) (i j : ℕ) : ℝ :=
  cfg.cell.distance (cfg.position i) (cfg.position j)

/-- Whether two particle indices belong to one molecule of the partition.
This stands for the bond-path lookup of the configuration: the spec states
that under the inter-molecular restriction a pair is excluded exactly when
both particles are in the same molecule. -/
def Configuration.sameMolecule (cfg : Configuration) (i j : ℕ) : Bool :=
  cfg.molecules.any (fun mol => mol.contains i && mol.contains j)

/-- Validity of a configuration, from the spec invariants: the molecule
lists form a partition of the dense particle index range. -/
structure Configuration.Valid (cfg : Configuration) : Prop where
  nodup : ∀ mid, mid < cfg.molecules.length → (cfg.molecules.getD mid []).Nodup
  bounded : ∀ mid, mid < cfg.molecules.length →
    ∀ p ∈ cfg.molecules.getD mid [], p < cfg.size
  disjoint : ∀ i, i < cfg.molecules.length → ∀ j, j < cfg.molecules.length →
    i ≠ j → ∀ p, p ∈ cfg.molecules.getD i [] → p ∉ cfg.molecules.getD j []
  covers : ∀ p, p < cfg.size →
    ∃ i, i < cfg.molecules.length ∧ p ∈ cfg.molecules.getD i []

/-- The moved configuration of the cache-equivalence property: the
configuration with the positions of molecule mid replaced, particle by
particle, by the entries of new_positions, all other data unchanged. -/
def Configuration.with_moved_molecule (cfg : Configuration) (mid : ℕ)
    (new_positions : List Vector3D) : Configuration :=
  { cfg with position := fun p =>
      match (cfg.molecules.getD mid []).findIdx? (fun q => q == p) with
      | some i => new_positions.getD i Vector3D.zero
      | none => cfg.position p }

/-- Pair restriction scheme, modelled from the spec: either no restriction
or exclusion of intra-molecular pairs. -/
inductive PairRestriction where
  | None : PairRestriction
  | InterMolecular : PairRestriction

/-- Restriction information for one pair, modelled from the spec: an
exclusion flag and a scaling factor. -/
structure RestrictionInfo where
  excluded : Bool
  scaling : ℝ

/-- Modelled from the spec: the restriction information of a pair given
whether the two particles share a molecule. Both supported schemes use a
scaling factor of one. -/
def PairRestriction.information : PairRestriction → Bool → RestrictionInfo
  | PairRestriction.None, _ => ⟨false, 1⟩
  | PairRestriction.InterMolecular, same => ⟨same, 1⟩

/-- Ewald parameters, translated from EwaldParameters: splitting parameter
alpha, real-space cutoff rc, number of k-points kmax and spherical k-space
cutoff kmax2. -/
structure EwaldParameters where
  alpha : ℝ
  rc : ℝ
  kmax : ℕ
  kmax2 : ℝ

/-- Per-cell Ewald pre-factors, translated from EwaldFactors: four parallel
arrays indexed by the kept k-points. -/
structure EwaldFactors where
  energy : List ℝ
  efield : List Vector3D
  virial : List Matrix3
  kvecs : List (ℤ × ℤ × ℤ)

/-- Integers from a (inclusive) up to b (exclusive), the Lean counterpart
of a Rust integer range loop. -/
def intRange (a b : ℤ) : List ℤ :=
  (List.range (b - a).toNat).map (fun (k : ℕ) => a + (k : ℤ))

/-- The three enumeration branches of EwaldFactors::compute_triclinic, in
loop order: positive ikx first, then ikx = 0 with positive iky, then
ikx = iky = 0 with positive ikz. -/
def kvecTriples (kmax : ℤ) : List (ℤ × ℤ × ℤ) :=
  ((intRange 1 kmax).flatMap (fun ikx =>
      (intRange (-kmax) kmax).flatMap (fun iky =>
        (intRange (-kmax) kmax).map (fun ikz => (ikx, iky, ikz)))))
  ++ ((intRange 1 kmax).flatMap (fun iky =>
        (intRange (-kmax) kmax).map (fun ikz => ((0:ℤ), iky, ikz))))
  ++ ((intRange 1 kmax).map (fun ikz => ((0:ℤ), (0:ℤ), ikz)))

/-- The k-vector of an integer triple in a cell. -/
def kvecOf (cell : UnitCell) (t : ℤ × ℤ × ℤ) : Vector3D :=
  cell.k_vector ⟨(t.1 : ℝ), (t.2.1 : ℝ), (t.2.2 : ℝ)⟩

/-- Energetic pre-factor of one k-point, translated from the loop body of
compute_triclinic: 4 pi / V times exp(-k2 / (4 alpha2)) / k2. -/
def energyFactor (cell : UnitCell) (p : EwaldParameters) (t : ℤ × ℤ × ℤ) : ℝ :=
  4 * Real.pi / cell.volume
    * Real.exp (-(kvecOf cell t).norm2 * (0.25 / (p.alpha * p.alpha)))
    / (kvecOf cell t).norm2

/-- Electric-field pre-factor of one k-point, translated from the loop
body of compute_triclinic. -/
def efieldFactor (cell : UnitCell) (p : EwaldParameters) (t : ℤ × ℤ × ℤ) : Vector3D :=
  (2 * energyFactor cell p t) • kvecOf cell t

/-- Virial pre-factor of one k-point, translated from the loop body of
compute_triclinic. -/
def virialFactor (cell : UnitCell) (p : EwaldParameters) (t : ℤ × ℤ × ℤ) : Matrix3 :=
  energyFactor cell p t •
    (Matrix3.one +
      (-2 * (1 / (kvecOf cell t).norm2 + 0.25 / (p.alpha * p.alpha))) •
        ((kvecOf cell t).tensorial (kvecOf cell t)))

/-- Body of EwaldFactors::compute_triclinic: every triple of the three
enumeration branches whose k-vector stays within the spherical cutoff is
kept, in loop order, and the four parallel arrays receive its factors. -/
def EwaldFactors.compute_triclinic (cell : UnitCell) (p : EwaldParameters) : EwaldFactors :=
  let kept := (kvecTriples (p.kmax : ℤ)).filter
    (fun t => !decide ((kvecOf cell t).norm2 > p.kmax2))
  { energy := kept.map (energyFactor cell p),
    efield := kept.map (efieldFactor cell p),
    virial := kept.map (virialFactor cell p),
    kvecs := kept }

/-- EwaldFactors::compute: an infinite cell is a fatal misuse (modelled as
none); orthorhombic cells share the triclinic path. -/
def EwaldFactors.compute (cell : UnitCell) (p : EwaldParameters) : Option EwaldFactors :=
  match cell.shape with
  | CellShape.Infinite => none
  | CellShape.Orthorhombic => some (EwaldFactors.compute_triclinic cell p)
  | CellShape.Triclinic => some (EwaldFactors.compute_triclinic cell p)

/-- The Ewald solver state, translated from the Ewald struct. The eikr
phase-factor table is represented as a total function on the signed
k-index, the axis and the particle index; the pending updater is stored as
the plain delta-rho data it would add on commit. -/
structure Ewald where
  parameters : EwaldParameters
  factors : EwaldFactors
  restriction : PairRestriction
  eikr : ℤ → ℕ → ℕ → ℂ
  rho : List ℂ
  efield : List Vector3D
  previous_cell : Option UnitCell
  updater : Option (List ℂ)

/-- Ewald::new, translated with panics as none: the default alpha is
pi over the cutoff, and construction is refused for a negative cutoff, a
negative alpha or a zero kmax. -/
def Ewald.new (cutoff : ℝ) (kmax : ℕ) (alpha : Option ℝ) : Option Ewald :=
  let a := alpha.getD (Real.pi / cutoff)
  if cutoff < 0 then none
  else if a < 0 then none
  else if kmax = 0 then none
  else some
    { parameters := { alpha := a, rc := cutoff, kmax := kmax, kmax2 := 0 },
      factors := ⟨[], [], [], []⟩,
      restriction := PairRestriction.None,
      eikr := fun _ _ _ => 0,
      rho := [],
      efield := [],
      previous_cell := none,
      updater := none }

/-- Ewald::precompute, translated with the infinite-cell panic of
EwaldFactors::compute as none: when the cell matches the cached one
nothing is recomputed; otherwise the guard and the spherical cutoff kmax2
are set and the factors rebuilt. The soft warnings of the source are not
observable and are not modelled. -/
def Ewald.precompute (e : Ewald) (cell : UnitCell) : Option Ewald :=
  if e.previous_cell = some cell then some e
  else
    let m := (cell.k_vector ⟨1, 1, 1⟩).max * (e.parameters.kmax : ℝ)
    let params := { e.parameters with kmax2 := 1.0001 * m * m }
    match EwaldFactors.compute cell params with
    | none => none
    | some fs => some { e with previous_cell := some cell, parameters := params, factors := fs }

/-- Ewald::real_space_energy_pair after its assertions: zero beyond the
cutoff, the erfc form for an included pair and the negative erf correction
for an excluded pair. -/
def Ewald.real_space_energy_pair (e : Ewald) (info : RestrictionInfo) (qiqj r : ℝ) : ℝ :=
  if r > e.parameters.rc then 0
  else if info.excluded = false then
    qiqj / FOUR_PI_EPSILON_0 * erfc (e.parameters.alpha * r) / r
  else
    -qiqj / FOUR_PI_EPSILON_0 * erf (e.parameters.alpha * r) / r

/-- Ewald::real_space_energy_pair with its assertions: the scaling factor
must be one, and an excluded pair beyond the cutoff trips the debug
assertion; both abort (none). -/
def Ewald.real_space_energy_pair_checked (e : Ewald) (info : RestrictionInfo) (qiqj r : ℝ) :
    Option ℝ :=
  if ¬ info.scaling = 1 then none
  else if r > e.parameters.rc ∧ info.excluded = true then none
  else some (e.real_space_energy_pair info qiqj r)

/-- Ewald::real_space_force_pair after its assertions (the scalar force
magnitude along the pair direction). -/
def Ewald.real_space_force_pair (e : Ewald) (info : RestrictionInfo) (qiqj r : ℝ) : ℝ :=
  if r > e.parameters.rc then 0
  else if info.excluded = false then
    qiqj / (FOUR_PI_EPSILON_0 * r * r) *
      (e.parameters.alpha * FRAC_2_SQRT_PI * Real.exp (-e.parameters.alpha * e.parameters.alpha * r * r)
        + erfc (e.parameters.alpha * r) / r)
  else
    qiqj / (FOUR_PI_EPSILON_0 * r * r) *
      (e.parameters.alpha * FRAC_2_SQRT_PI * Real.exp (-e.parameters.alpha * e.parameters.alpha * r * r)
        - erf (e.parameters.alpha * r) / r)

/-- Ewald::real_space_force_pair with its assertions, as for the energy
kernel. -/
def Ewald.real_space_force_pair_checked (e : Ewald) (info : RestrictionInfo) (qiqj r : ℝ) :
    Option ℝ :=
  if ¬ info.scaling = 1 then none
  else if r > e.parameters.rc ∧ info.excluded = true then none
  else some (e.real_space_force_pair info qiqj r)

/-- Ewald::real_space_energy: the pair kernel summed over ordered pairs
i < j, skipping chargeless particles. -/
def Ewald.real_space_energy (e : Ewald) (cfg : Configuration) : ℝ :=
  ∑ i in Finset.range cfg.size,
    (if cfg.charge i = 0 then 0 else
      ∑ j in Finset.Ico (i + 1) cfg.size,
        (if cfg.charge j = 0 then 0 else
          e.real_space_energy_pair
            (e.restriction.information (cfg.sameMolecule i j))
            (cfg.charge i * cfg.charge j) (cfg.distance i j)))

/-- Ewald::real_space_move_molecule_cost: for every charged particle of
the moved molecule and every charged particle of every other molecule, the
difference between the pair energy at the proposed position and at the
current one. The source accumulates the old and new energies in the same
loops and returns their difference; the translation sums the per-pair
differences, which is the same real number. -/
def Ewald.real_space_move_molecule_cost (e : Ewald) (cfg : Configuration)
    (molecule_id : ℕ) (new_positions : List Vector3D) : ℝ :=
  let mol := cfg.molecules.getD molecule_id []
  ∑ i in Finset.range mol.length,
    (if cfg.charge (mol.getD i 0) = 0 then 0 else
      ∑ oid in (Finset.range cfg.molecules.length).filter (fun oid => oid ≠ molecule_id),
        ∑ jx in Finset.range (cfg.molecules.getD oid []).length,
          (if cfg.charge ((cfg.molecules.getD oid []).getD jx 0) = 0 then 0 else
            e.real_space_energy_pair
              (e.restriction.information
                (cfg.sameMolecule (mol.getD i 0) ((cfg.molecules.getD oid []).getD jx 0)))
              (cfg.charge (mol.getD i 0) * cfg.charge ((cfg.molecules.getD oid []).getD jx 0))
              (cfg.cell.distance (new_positions.getD i Vector3D.zero)
                (cfg.position ((cfg.molecules.getD oid []).getD jx 0)))
            - e.real_space_energy_pair
              (e.restriction.information
                (cfg.sameMolecule (mol.getD i 0) ((cfg.molecules.getD oid []).getD jx 0)))
              (cfg.charge (mol.getD i 0) * cfg.charge ((cfg.molecules.getD oid []).getD jx 0))
              (cfg.distance (mol.getD i 0) ((cfg.molecules.getD oid []).getD jx 0))))

/-- Ewald::self_energy: the point-charge self-interaction correction. -/
def Ewald.self_energy (e : Ewald) (cfg : Configuration) : ℝ :=
  -e.parameters.alpha / Real.sqrt Real.pi
    * (∑ i in Finset.range cfg.size, cfg.charge i * cfg.charge i) / FOUR_PI_EPSILON_0

/-- A unit complex number of the given phase, translated from
Complex::polar with modulus one. -/
def polarUnit (phi : ℝ) : ℂ := ⟨Real.cos phi, Real.sin phi⟩

/-- The phase-factor recurrence of eik_dot_r along one axis for one
particle: the power zero is one, each next positive power multiplies by
the base phase factor, and negative powers are complex conjugates. -/
def eikrPowNat (u : ℂ) : ℕ → ℂ
  | 0 => 1
  | n + 1 => eikrPowNat u n * u

/-- Signed-index extension of the phase-factor recurrence, as filled by
eik_dot_r: negative first-axis indices hold the conjugates. -/
def eikrPow (u : ℂ) : ℤ → ℂ
  | Int.ofNat n => eikrPowNat u n
  | Int.negSucc n => star (eikrPowNat u (n + 1))

/-- The unit reciprocal vector along one axis, from the basis index passed
to k_vector in eik_dot_r. -/
def axisKvec (cell : UnitCell) (d : ℕ) : Vector3D :=
  cell.k_vector (if d = 0 then ⟨1, 0, 0⟩ else if d = 1 then ⟨0, 1, 0⟩ else ⟨0, 0, 1⟩)

/-- The full phase-factor table eikr that eik_dot_r computes for a
configuration, as a function of signed k-index, axis and particle. -/
def eikrFun (cfg : Configuration) : ℤ → ℕ → ℕ → ℂ :=
  fun k d i => eikrPow (polarUnit ((axisKvec cfg.cell d).dot (cfg.position i))) k

/-- Product of the three per-axis phase factors of one particle at one
k-point, as read by the structure-factor loops. -/
def phiAt (table : ℤ → ℕ → ℕ → ℂ) (kv : ℤ × ℤ × ℤ) (i : ℕ) : ℂ :=
  table kv.1 0 i * table kv.2.1 1 i * table kv.2.2 2 i

/-- One component of the structure factor rho at one k-point of a
configuration, as summed by eik_dot_r. -/
def rhoAt (cfg : Configuration) (kv : ℤ × ℤ × ℤ) : ℂ :=
  ∑ i in Finset.range cfg.size, (cfg.charge i : ℂ) * phiAt (eikrFun cfg) kv i

/-- Ewald::eik_dot_r: refill the phase-factor table from the configuration
and recompute the structure factor over the kept k-points. -/
def Ewald.eik_dot_r (e : Ewald) (cfg : Configuration) : Ewald :=
  { e with eikr := eikrFun cfg, rho := e.factors.kvecs.map (rhoAt cfg) }

/-- Ewald::kspace_energy: recompute the structure factor, then sum the
energy pre-factors against its squared moduli. -/
def Ewald.kspace_energy (e : Ewald) (cfg : Configuration) : ℝ × Ewald :=
  let e2 := e.eik_dot_r cfg
  ((List.zipWith (fun f r => f * Complex.normSq r) e2.factors.energy e2.rho).sum
      / FOUR_PI_EPSILON_0,
    e2)

/-- Lockstep combination of three lists, the Lean counterpart of the three
way zip of the source. -/
def zipWith3 (f : α → β → γ → δ) : List α → List β → List γ → List δ
  | a :: as, b :: bs, c :: cs => f a b c :: zipWith3 f as bs cs
  | _, _, _ => []

/-- The local phase-factor table that delta_rho_move_rigid_molecules
builds for the proposed positions of the moved molecule, by the same
recurrence as eik_dot_r, indexed by the slot inside the molecule. -/
def newPhaseTable (cfg : Configuration) (P : List Vector3D) : ℤ → ℕ → ℕ → ℂ :=
  fun k d i => eikrPow (polarUnit ((axisKvec cfg.cell d).dot (P.getD i Vector3D.zero))) k

/-- Ewald::delta_rho_move_rigid_molecules continued: the change of the
structure factor at every kept k-point. -/
def Ewald.delta_rho_move_rigid_molecules (e : Ewald) (cfg : Configuration)
    (molecule_id : ℕ) (new_positions : List Vector3D) : List ℂ :=
  let mol := cfg.molecules.getD molecule_id []
  e.factors.kvecs.map (fun kv =>
    ∑ i in Finset.range mol.length,
      (cfg.charge (mol.getD i 0) : ℂ) *
        (phiAt (newPhaseTable cfg new_positions) kv i - phiAt e.eikr kv (mol.getD i 0)))

/-- Ewald::kspace_move_molecule_cost: the old k-space energy from the
stored structure factor, the new one from the stored structure factor
shifted by delta-rho, and the delta-rho retained as the pending updater. -/
def Ewald.kspace_move_molecule_cost (e : Ewald) (cfg : Configuration)
    (molecule_id : ℕ) (new_positions : List Vector3D) : ℝ × Ewald :=
  let old_energy :=
    (List.zipWith (fun f r => f * Complex.normSq r) e.factors.energy e.rho).sum
      / FOUR_PI_EPSILON_0
  let delta := e.delta_rho_move_rigid_molecules cfg molecule_id new_positions
  let new_energy :=
    (zipWith3 (fun f r d => f * Complex.normSq (r + d)) e.factors.energy e.rho delta).sum
      / FOUR_PI_EPSILON_0
  (new_energy - old_energy, { e with updater := some delta })

/-- Clone impl of Ewald: every field is copied except the pending updater,
which is dropped. -/
def Ewald.clone (e : Ewald) : Ewald :=
  { parameters := e.parameters,
    factors := e.factors,
    restriction := e.restriction,
    eikr := e.eikr,
    rho := e.rho,
    efield := e.efield,
    previous_cell := e.previous_cell,
    updater := none }

/-- GlobalPotential::energy for SharedEwald (the shared wrapper adds only
locking, so it is modelled on the solver state directly): precompute for
the cell, then real-space plus self plus k-space contributions. -/
def SharedEwald.energy (e : Ewald) (cfg : Configuration) : Option (ℝ × Ewald) :=
  match e.precompute cfg.cell with
  | none => none
  | some e1 =>
    let real := e1.real_space_energy cfg
    let self_e := e1.self_energy cfg
    let ks := e1.kspace_energy cfg
    some (real + self_e + ks.1, ks.2)

/-- GlobalCache::move_molecule_cost for SharedEwald: precompute for the
cell, then the real-space cost plus the k-space cost (no self-energy
cost). -/
def SharedEwald.move_molecule_cost (e : Ewald) (cfg : Configuration)
    (molecule_id : ℕ) (new_positions : List Vector3D) : Option (ℝ × Ewald) :=
  match e.precompute cfg.cell with
  | none => none
  | some e1 =>
    let real := e1.real_space_move_molecule_cost cfg molecule_id new_positions
    let ks := e1.kspace_move_molecule_cost cfg molecule_id new_positions
    some (real + ks.1, ks.2)

/-- GlobalCache::update for SharedEwald: a pending updater is taken out
and adds its delta-rho, component by component, to the stored structure
factor; without one nothing changes. -/
def SharedEwald.update (e : Ewald) : Ewald :=
  match e.updater with
  | some delta =>
    { e with rho := List.zipWith (fun r d => r + d) e.rho delta, updater := none }
  | none => e

/-- Clone impl of SharedEwald: a fresh lock around a clone of the inner
solver. -/
def SharedEwald.clone (e : Ewald) : Ewald := e.clone

/-- A concrete solver state with the parameters of the repository test
suite (cutoff 8, kmax 10, an explicit alpha of 1) and empty caches, used
as input of the witnesses. -/
def ewald0 : Ewald :=
  { parameters := { alpha := 1, rc := 8, kmax := 10, kmax2 := 0 },
    factors := ⟨[], [], [], []⟩,
    restriction := PairRestriction.InterMolecular,
    eikr := fun _ _ _ => 0,
    rho := [],
    efield := [],
    previous_cell := none,
    updater := none }

/-- Claim C10: cloning the solver never carries a pending move. Every
field of the clone equals the original except the pending updater, which
is dropped, so an update on the clone leaves its structure factor
unchanged. -/
theorem claim_C10 (e : Ewald) :
    (SharedEwald.clone e).updater = none
    ∧ (SharedEwald.update (SharedEwald.clone e)).rho = (SharedEwald.clone e).rho
    ∧ (SharedEwald.clone e).parameters = e.parameters
    ∧ (SharedEwald.clone e).factors = e.factors
    ∧ (SharedEwald.clone e).restriction = e.restriction
    ∧ (SharedEwald.clone e).eikr = e.eikr
    ∧ (SharedEwald.clone e).rho = e.rho
    ∧ (SharedEwald.clone e).efield = e.efield
    ∧ (SharedEwald.clone e).previous_cell = e.previous_cell := by
  exact ⟨rfl, rfl, rfl, rfl, rfl, rfl, rfl, rfl, rfl⟩

/-- Claim C4, counterexample: the claim asks for a panic on every
non-positive cutoff and every non-positive supplied alpha, but the code
only rejects strictly negative values, so construction with a zero cutoff
or a zero alpha succeeds. -/
theorem claim_C4_counterexample :
    ((0:ℝ) ≤ 0 ∧ (Ewald.new 0 10 (some 1)).isSome = true)
    ∧ ((0:ℝ) ≤ 0 ∧ (Ewald.new 8 10 (some 0)).isSome = true) := by
  refine ⟨⟨le_refl 0, ?_⟩, ⟨le_refl 0, ?_⟩⟩ <;>
    simp [Ewald.new]

/-- Claim C4, amended: Ewald::new refuses construction for a strictly
negative cutoff, then for a strictly negative effective alpha (the
supplied one, or pi over the cutoff by default), then for a zero kmax. -/
theorem claim_C4 (cutoff : ℝ) (kmax : ℕ) (alpha : Option ℝ) :
    (cutoff < 0 → Ewald.new cutoff kmax alpha = none)
    ∧ (¬ cutoff < 0 → alpha.getD (Real.pi / cutoff) < 0 →
        Ewald.new cutoff kmax alpha = none)
    ∧ (¬ cutoff < 0 → ¬ alpha.getD (Real.pi / cutoff) < 0 → kmax = 0 →
        Ewald.new cutoff kmax alpha = none) := by
  unfold Ewald.new
  refine ⟨fun h => ?_, fun h1 h2 => ?_, fun h1 h2 h3 => ?_⟩
  · rw [if_pos h]
  · rw [if_neg h1, if_pos h2]
  · rw [if_neg h1, if_neg h2, if_pos h3]

/-- Witness for the amended claim C4 at the concrete inputs of the test
suite: negative cutoff, negative supplied alpha, and zero kmax all refuse
construction. -/
theorem claim_C4_witness :
    Ewald.new (-8) 10 none = none
    ∧ Ewald.new 8 10 (some (-45.2)) = none
    ∧ Ewald.new 8 0 none = none := by
  refine ⟨(claim_C4 (-8) 10 none).1 (by norm_num),
    (claim_C4 8 10 (some (-45.2))).2.1 (by norm_num) (by norm_num),
    (claim_C4 8 0 none).2.2 (by norm_num) ?_ rfl⟩
  simp only [Option.getD]
  exact not_lt.mpr (by positivity)

/-- Claim C5: both real-space pair kernels abort on an excluded pair whose
distance exceeds the real-space cutoff, whatever the scaling factor (a
scaling other than one aborts on its own assertion first). -/
theorem claim_C5 (e : Ewald) (info : RestrictionInfo) (qiqj r : ℝ)
    (hexcl : info.excluded = true) (hr : r > e.parameters.rc) :
    e.real_space_energy_pair_checked info qiqj r = none
    ∧ e.real_space_force_pair_checked info qiqj r = none := by
  unfold Ewald.real_space_energy_pair_checked Ewald.real_space_force_pair_checked
  by_cases hs : info.scaling = 1
  · rw [if_neg (not_not_intro hs), if_pos ⟨hr, hexcl⟩,
      if_neg (not_not_intro hs), if_pos ⟨hr, hexcl⟩]
    exact ⟨rfl, rfl⟩
  · rw [if_pos hs, if_pos hs]
    exact ⟨rfl, rfl⟩

/-- Witness for claim C5: an excluded pair at distance 9 under cutoff 8
makes both checked kernels abort. -/
theorem claim_C5_witness :
    ewald0.real_space_energy_pair_checked ⟨true, 1⟩ 1 9 = none
    ∧ ewald0.real_space_force_pair_checked ⟨true, 1⟩ 1 9 = none :=
  claim_C5 ewald0 ⟨true, 1⟩ 1 9 rfl (by norm_num [ewald0])

/-- Claim C8: under a scaling factor of one and away from the excluded
distance assertion, the real-space pair energy is zero beyond the cutoff,
the negative erf correction for an excluded pair, and the erfc screened
Coulomb term otherwise. -/
theorem claim_C8 (e : Ewald) (info : RestrictionInfo) (qiqj r : ℝ)
    (hs : info.scaling = 1) (hx : ¬ (r > e.parameters.rc ∧ info.excluded = true)) :
    e.real_space_energy_pair_checked info qiqj r =
      some (if r > e.parameters.rc then 0
            else if info.excluded = true then
              -(qiqj / FOUR_PI_EPSILON_0) * (erf (e.parameters.alpha * r) / r)
            else qiqj / FOUR_PI_EPSILON_0 * (erfc (e.parameters.alpha * r) / r)) := by
  unfold Ewald.real_space_energy_pair_checked Ewald.real_space_energy_pair
  rw [if_neg (not_not_intro hs), if_neg hx]
  congr 1
  by_cases h1 : r > e.parameters.rc
  · rw [if_pos h1, if_pos h1]
  · rw [if_neg h1, if_neg h1]
    by_cases h2 : info.excluded = true
    · rw [if_neg (by simp [h2]), if_pos h2]
      ring
    · rw [if_pos (by simpa using h2), if_neg h2]
      ring

/-- Witness for claim C8: an included pair of unit charges at distance 1
under cutoff 8 and alpha 1 gets the erfc screened Coulomb energy. -/
theorem claim_C8_witness :
    ewald0.real_space_energy_pair_checked ⟨false, 1⟩ 1 1 =
      some (if (1:ℝ) > ewald0.parameters.rc then 0
            else if false = true then
              -((1:ℝ) / FOUR_PI_EPSILON_0) * (erf (ewald0.parameters.alpha * 1) / 1)
            else (1:ℝ) / FOUR_PI_EPSILON_0 * (erfc (ewald0.parameters.alpha * 1) / 1)) :=
  claim_C8 ewald0 ⟨false, 1⟩ 1 1 rfl (by norm_num [ewald0])

/-- Claim C9: on a precompute with a cell other than the cached one, the
spherical k-space cutoff is set to 1.0001 times the square of the maximum
norm of the reciprocal vector at index (1,1,1) scaled by kmax. -/
theorem claim_C9 (e : Ewald) (cell : UnitCell)
    (hdiff : ¬ e.previous_cell = some cell)
    (hshape : cell.shape ≠ CellShape.Infinite) :
    ∃ e2, e.precompute cell = some e2 ∧
      e2.parameters.kmax2 =
        1.0001 * ((cell.k_vector ⟨1, 1, 1⟩).max * (e.parameters.kmax : ℝ)) ^ 2 := by
  unfold Ewald.precompute EwaldFactors.compute
  rw [if_neg hdiff]
  rcases cell with ⟨shape, mat⟩
  cases shape with
  | Infinite => exact absurd rfl hshape
  | Orthorhombic => exact ⟨_, rfl, by ring⟩
  | Triclinic => exact ⟨_, rfl, by ring⟩

/-- Witness for claim C9: a fresh solver precomputing a cubic cell of edge
20 sets the kmax2 policy value. -/
theorem claim_C9_witness :
    ∃ e2, ewald0.precompute (UnitCell.cubic 20) = some e2 ∧
      e2.parameters.kmax2 =
        1.0001 * (((UnitCell.cubic 20).k_vector ⟨1, 1, 1⟩).max
          * ((ewald0.parameters.kmax : ℕ) : ℝ)) ^ 2 :=
  claim_C9 ewald0 (UnitCell.cubic 20) (by simp [ewald0]) (by simp [UnitCell.cubic])

/-- Membership in an integer range list: exactly the integers from the
lower bound (inclusive) to the upper bound (exclusive). -/
theorem mem_intRange {a b x : ℤ} : x ∈ intRange a b ↔ a ≤ x ∧ x < b := by
  simp only [intRange, List.mem_map, List.mem_range]
  constructor
  · rintro ⟨k, hk, rfl⟩
    omega
  · rintro ⟨h1, h2⟩
    exact ⟨(x - a).toNat, by omega, by omega⟩

/-- Membership in the three-branch enumeration of compute_triclinic. -/
theorem mem_kvecTriples {kmax : ℤ} {t : ℤ × ℤ × ℤ} :
    t ∈ kvecTriples kmax ↔
      ((1 ≤ t.1 ∧ t.1 < kmax) ∧ (-kmax ≤ t.2.1 ∧ t.2.1 < kmax)
          ∧ (-kmax ≤ t.2.2 ∧ t.2.2 < kmax))
      ∨ (t.1 = 0 ∧ (1 ≤ t.2.1 ∧ t.2.1 < kmax) ∧ (-kmax ≤ t.2.2 ∧ t.2.2 < kmax))
      ∨ (t.1 = 0 ∧ t.2.1 = 0 ∧ (1 ≤ t.2.2 ∧ t.2.2 < kmax)) := by
  rcases t with ⟨tx, ty, tz⟩
  simp only [kvecTriples, List.mem_append, List.mem_flatMap, List.mem_map,
    mem_intRange, Prod.mk.injEq]
  constructor
  · rintro ((⟨ikx, hx, iky, hy, ikz, hz, rfl, rfl, rfl⟩ | ⟨iky, hy, ikz, hz, rfl, rfl, rfl⟩)
      | ⟨ikz, hz, rfl, rfl, rfl⟩)
    · exact Or.inl ⟨hx, hy, hz⟩
    · exact Or.inr (Or.inl ⟨rfl, hy, hz⟩)
    · exact Or.inr (Or.inr ⟨rfl, rfl, hz⟩)
  · rintro (⟨hx, hy, hz⟩ | ⟨rfl, hy, hz⟩ | ⟨rfl, rfl, hz⟩)
    · exact Or.inl (Or.inl ⟨tx, hx, ty, hy, tz, hz, rfl, rfl, rfl⟩)
    · exact Or.inl (Or.inr ⟨ty, hy, tz, hz, rfl, rfl, rfl⟩)
    · exact Or.inr ⟨tz, hz, rfl, rfl, rfl⟩

/-- Claim C3: for a finite cell, the factor builder returns four parallel
arrays of one common length, whose k-point list holds exactly the triples
of the three enumeration branches that pass the spherical cutoff, and
never the zero triple. The list is built in the loop order of the source,
and is a plain function of the cell and the parameters. -/
theorem claim_C3 (cell : UnitCell) (p : EwaldParameters)
    (hshape : cell.shape ≠ CellShape.Infinite) :
    ∃ fs, EwaldFactors.compute cell p = some fs ∧
      fs.energy.length = fs.kvecs.length ∧
      fs.efield.length = fs.kvecs.length ∧
      fs.virial.length = fs.kvecs.length ∧
      (∀ t : ℤ × ℤ × ℤ, t ∈ fs.kvecs ↔
        (((1 ≤ t.1 ∧ t.1 ≤ (p.kmax : ℤ) - 1)
            ∧ (-(p.kmax : ℤ) ≤ t.2.1 ∧ t.2.1 ≤ (p.kmax : ℤ) - 1)
            ∧ (-(p.kmax : ℤ) ≤ t.2.2 ∧ t.2.2 ≤ (p.kmax : ℤ) - 1))
          ∨ (t.1 = 0 ∧ (1 ≤ t.2.1 ∧ t.2.1 ≤ (p.kmax : ℤ) - 1)
              ∧ (-(p.kmax : ℤ) ≤ t.2.2 ∧ t.2.2 ≤ (p.kmax : ℤ) - 1))
          ∨ (t.1 = 0 ∧ t.2.1 = 0 ∧ (1 ≤ t.2.2 ∧ t.2.2 ≤ (p.kmax : ℤ) - 1)))
        ∧ (kvecOf cell t).norm2 ≤ p.kmax2) ∧
      ((0:ℤ), (0:ℤ), (0:ℤ)) ∉ fs.kvecs := by
  have hiff : ∀ t : ℤ × ℤ × ℤ,
      t ∈ (EwaldFactors.compute_triclinic cell p).kvecs ↔
        (((1 ≤ t.1 ∧ t.1 ≤ (p.kmax : ℤ) - 1)
            ∧ (-(p.kmax : ℤ) ≤ t.2.1 ∧ t.2.1 ≤ (p.kmax : ℤ) - 1)
            ∧ (-(p.kmax : ℤ) ≤ t.2.2 ∧ t.2.2 ≤ (p.kmax : ℤ) - 1))
          ∨ (t.1 = 0 ∧ (1 ≤ t.2.1 ∧ t.2.1 ≤ (p.kmax : ℤ) - 1)
              ∧ (-(p.kmax : ℤ) ≤ t.2.2 ∧ t.2.2 ≤ (p.kmax : ℤ) - 1))
          ∨ (t.1 = 0 ∧ t.2.1 = 0 ∧ (1 ≤ t.2.2 ∧ t.2.2 ≤ (p.kmax : ℤ) - 1)))
        ∧ (kvecOf cell t).norm2 ≤ p.kmax2 := by
    intro t
    unfold EwaldFactors.compute_triclinic
    simp only [List.mem_filter, mem_kvecTriples, Bool.not_eq_true', decide_eq_false_iff_not,
      not_lt]
    refine and_congr ?_ Iff.rfl
    omega
  refine ⟨EwaldFactors.compute_triclinic cell p, ?_, ?_, ?_, ?_, hiff, ?_⟩
  · unfold EwaldFactors.compute
    cases h : cell.shape with
    | Infinite => exact absurd h hshape
    | Orthorhombic => rfl
    | Triclinic => rfl
  · simp [EwaldFactors.compute_triclinic]
  · simp [EwaldFactors.compute_triclinic]
  · simp [EwaldFactors.compute_triclinic]
  · intro h
    rcases (hiff ((0:ℤ), (0:ℤ), (0:ℤ))).mp h with ⟨hb, _⟩
    rcases hb with ⟨⟨h1, _⟩, _⟩ | ⟨_, ⟨h1, _⟩, _⟩ | ⟨_, _, h1, _⟩ <;>
      exact absurd h1 (by decide)

/-- Witness for claim C3: the factor builder on a cubic cell of edge 20
with the parameters of the test suite. -/
theorem claim_C3_witness :
    ∃ fs, EwaldFactors.compute (UnitCell.cubic 20) ewald0.parameters = some fs ∧
      fs.energy.length = fs.kvecs.length ∧
      fs.efield.length = fs.kvecs.length ∧
      fs.virial.length = fs.kvecs.length ∧
      (∀ t : ℤ × ℤ × ℤ, t ∈ fs.kvecs ↔
        (((1 ≤ t.1 ∧ t.1 ≤ (ewald0.parameters.kmax : ℤ) - 1)
            ∧ (-(ewald0.parameters.kmax : ℤ) ≤ t.2.1
                ∧ t.2.1 ≤ (ewald0.parameters.kmax : ℤ) - 1)
            ∧ (-(ewald0.parameters.kmax : ℤ) ≤ t.2.2
                ∧ t.2.2 ≤ (ewald0.parameters.kmax : ℤ) - 1))
          ∨ (t.1 = 0 ∧ (1 ≤ t.2.1 ∧ t.2.1 ≤ (ewald0.parameters.kmax : ℤ) - 1)
              ∧ (-(ewald0.parameters.kmax : ℤ) ≤ t.2.2
                  ∧ t.2.2 ≤ (ewald0.parameters.kmax : ℤ) - 1))
          ∨ (t.1 = 0 ∧ t.2.1 = 0
              ∧ (1 ≤ t.2.2 ∧ t.2.2 ≤ (ewald0.parameters.kmax : ℤ) - 1)))
        ∧ (kvecOf (UnitCell.cubic 20) t).norm2 ≤ ewald0.parameters.kmax2) ∧
      ((0:ℤ), (0:ℤ), (0:ℤ)) ∉ fs.kvecs :=
  claim_C3 (UnitCell.cubic 20) ewald0.parameters (by simp [UnitCell.cubic])

/-- With a warm cache for the cell of the configuration, precompute is a
no-op. -/
theorem precompute_warm (e : Ewald) (cell : UnitCell)
    (hprev : e.previous_cell = some cell) : e.precompute cell = some e := by
  unfold Ewald.precompute
  rw [if_pos hprev]

/-- The state after move_molecule_cost with a warm cache: the cost value
with the original state carrying the fresh delta-rho as its only change. -/
theorem move_molecule_cost_state (e : Ewald) (cfg : Configuration) (mid : ℕ)
    (P : List Vector3D) (hprev : e.previous_cell = some cfg.cell) :
    SharedEwald.move_molecule_cost e cfg mid P =
      some (e.real_space_move_molecule_cost cfg mid P
              + (e.kspace_move_molecule_cost cfg mid P).1,
            { e with updater := some (e.delta_rho_move_rigid_molecules cfg mid P) }) := by
  unfold SharedEwald.move_molecule_cost
  rw [precompute_warm e cfg.cell hprev]
  rfl

/-- Claim C7: with a warm cache, move_molecule_cost publishes no mutation
other than the pending updater, and a later energy call on the same
configuration returns the same value whether or not the cost was
requested first. -/
theorem claim_C7 (e : Ewald) (cfg : Configuration) (mid : ℕ) (P : List Vector3D)
    (hprev : e.previous_cell = some cfg.cell) :
    ∃ c e2, SharedEwald.move_molecule_cost e cfg mid P = some (c, e2)
      ∧ e2.rho = e.rho
      ∧ e2.eikr = e.eikr
      ∧ e2.factors = e.factors
      ∧ e2.parameters = e.parameters
      ∧ e2.restriction = e.restriction
      ∧ e2.previous_cell = e.previous_cell
      ∧ e2.efield = e.efield
      ∧ Option.map Prod.fst (SharedEwald.energy e2 cfg)
          = Option.map Prod.fst (SharedEwald.energy e cfg) := by
  have henergy : ∀ u, Option.map Prod.fst
      (SharedEwald.energy { e with updater := u } cfg)
        = Option.map Prod.fst (SharedEwald.energy e cfg) := by
    intro u
    unfold SharedEwald.energy
    rw [precompute_warm { e with updater := u } cfg.cell hprev,
      precompute_warm e cfg.cell hprev]
    rfl
  exact ⟨_, _, move_molecule_cost_state e cfg mid P hprev,
    rfl, rfl, rfl, rfl, rfl, rfl, rfl, henergy _⟩

/-- Claim C6: two move costs without an intervening commit keep only the
delta-rho of the second move, and a commit after them adds exactly that
delta-rho to the stored structure factor. -/
theorem claim_C6 (e : Ewald) (cfg : Configuration) (m1 m2 : ℕ)
    (P1 P2 : List Vector3D) (hprev : e.previous_cell = some cfg.cell) :
    ∃ c1 e1 c2 e2,
      SharedEwald.move_molecule_cost e cfg m1 P1 = some (c1, e1)
      ∧ SharedEwald.move_molecule_cost e1 cfg m2 P2 = some (c2, e2)
      ∧ e2.updater = some (e.delta_rho_move_rigid_molecules cfg m2 P2)
      ∧ (SharedEwald.update e2).rho =
          List.zipWith (fun r d => r + d) e.rho
            (e.delta_rho_move_rigid_molecules cfg m2 P2)
      ∧ (SharedEwald.update e2).updater = none := by
  refine ⟨_, _, _, _, move_molecule_cost_state e cfg m1 P1 hprev,
    move_molecule_cost_state _ cfg m2 P2 hprev, rfl, rfl, rfl⟩

/-- Summing a function of the entries of a duplicate-free list over its
index range is summing it over the set of entries. -/
theorem sum_range_getD {M : Type*} [AddCommMonoid M] (l : List ℕ) (hnd : l.Nodup)
    (f : ℕ → M) :
    ∑ i in Finset.range l.length, f (l.getD i 0) = ∑ a in l.toFinset, f a := by
  induction l with
  | nil => simp
  | cons a t ih =>
    have ha := (List.nodup_cons.mp hnd).1
    have hnd2 := (List.nodup_cons.mp hnd).2
    rw [List.length_cons, Finset.sum_range_succ']
    simp only [List.getD_cons_succ, List.getD_cons_zero]
    rw [ih hnd2, List.toFinset_cons, Finset.sum_insert (by simpa using ha)]
    exact add_comm _ _

/-- In a duplicate-free list, searching for the entry at a position finds
that position. -/
theorem findIdx_beq_getD (l : List ℕ) (hnd : l.Nodup) (i : ℕ) (hi : i < l.length) :
    l.findIdx? (fun q => q == l.getD i 0) = some i := by
  induction l generalizing i with
  | nil => simp at hi
  | cons a t ih =>
    have ha := (List.nodup_cons.mp hnd).1
    have hnd2 := (List.nodup_cons.mp hnd).2
    cases i with
    | zero => simp [List.findIdx?_cons]
    | succ n =>
      have hn : n < t.length := by simpa using hi
      have hmem : t.getD n 0 ∈ t := by
        rw [List.getD_eq_getElem t 0 hn]
        exact List.getElem_mem hn
      have hne : (a == t.getD n 0) = false := by
        simp only [beq_eq_false_iff_ne, ne_eq]
        intro h
        exact ha (h ▸ hmem)
      have hne2 : ¬ a = t[n]?.getD 0 := by
        have h3 := beq_eq_false_iff_ne.mp hne
        simpa [List.getD] using h3
      rw [List.getD_cons_succ, List.findIdx?_cons, if_neg (by simpa using hne2),
        show (1:ℕ) = 0 + 1 from rfl, List.findIdx?_succ, ih hnd2 n hn]
      rfl

/-- A particle outside the moved molecule keeps its position. -/
theorem with_moved_position_off (cfg : Configuration) (mid : ℕ) (P : List Vector3D)
    (p : ℕ) (hp : p ∉ cfg.molecules.getD mid []) :
    (cfg.with_moved_molecule mid P).position p = cfg.position p := by
  unfold Configuration.with_moved_molecule
  have hnone : (cfg.molecules.getD mid []).findIdx? (fun q => q == p) = none := by
    rw [List.findIdx?_eq_none_iff]
    intro x hx
    simp only [beq_eq_false_iff_ne, ne_eq]
    intro h
    exact hp (h ▸ hx)
  simp only [hnone]

/-- A particle of the moved molecule takes the proposed position of its
slot. -/
theorem with_moved_position_hit (cfg : Configuration) (mid : ℕ) (P : List Vector3D)
    (i : ℕ) (hnd : (cfg.molecules.getD mid []).Nodup)
    (hi : i < (cfg.molecules.getD mid []).length) :
    (cfg.with_moved_molecule mid P).position ((cfg.molecules.getD mid []).getD i 0)
      = P.getD i Vector3D.zero := by
  unfold Configuration.with_moved_molecule
  simp only [findIdx_beq_getD _ hnd i hi]

@[simp] theorem with_moved_cell (cfg : Configuration) (mid : ℕ) (P : List Vector3D) :
    (cfg.with_moved_molecule mid P).cell = cfg.cell := rfl

@[simp] theorem with_moved_size (cfg : Configuration) (mid : ℕ) (P : List Vector3D) :
    (cfg.with_moved_molecule mid P).size = cfg.size := rfl

@[simp] theorem with_moved_charge (cfg : Configuration) (mid : ℕ) (P : List Vector3D) :
    (cfg.with_moved_molecule mid P).charge = cfg.charge := rfl

@[simp] theorem with_moved_molecules (cfg : Configuration) (mid : ℕ) (P : List Vector3D) :
    (cfg.with_moved_molecule mid P).molecules = cfg.molecules := rfl

/-- The phase table of the moved configuration agrees with the original
one on particles outside the moved molecule. -/
theorem eikrFun_moved_off (cfg : Configuration) (mid : ℕ) (P : List Vector3D)
    (p : ℕ) (hp : p ∉ cfg.molecules.getD mid []) (k : ℤ) (d : ℕ) :
    eikrFun (cfg.with_moved_molecule mid P) k d p = eikrFun cfg k d p := by
  unfold eikrFun
  rw [with_moved_cell, with_moved_position_off cfg mid P p hp]

/-- The phase table of the moved configuration on a particle of the moved
molecule is the local new-position table at its slot. -/
theorem eikrFun_moved_hit (cfg : Configuration) (mid : ℕ) (P : List Vector3D)
    (i : ℕ) (hnd : (cfg.molecules.getD mid []).Nodup)
    (hi : i < (cfg.molecules.getD mid []).length) (k : ℤ) (d : ℕ) :
    eikrFun (cfg.with_moved_molecule mid P) k d ((cfg.molecules.getD mid []).getD i 0)
      = newPhaseTable cfg P k d i := by
  unfold eikrFun newPhaseTable
  rw [with_moved_cell, with_moved_position_hit cfg mid P i hnd hi]

/-- The structure factor of the moved configuration at one k-point is the
original one shifted by the delta of the moved molecule. -/
theorem rhoAt_moved (cfg : Configuration) (hv : cfg.Valid) (mid : ℕ)
    (hmid : mid < cfg.molecules.length) (P : List Vector3D) (kv : ℤ × ℤ × ℤ) :
    rhoAt (cfg.with_moved_molecule mid P) kv
      = rhoAt cfg kv
        + ∑ i in Finset.range (cfg.molecules.getD mid []).length,
            (cfg.charge ((cfg.molecules.getD mid []).getD i 0) : ℂ) *
              (phiAt (newPhaseTable cfg P) kv i
                - phiAt (eikrFun cfg) kv ((cfg.molecules.getD mid []).getD i 0)) := by
  have hnd := hv.nodup mid hmid
  have hbound := hv.bounded mid hmid
  have hsub : (cfg.molecules.getD mid []).toFinset ⊆ Finset.range cfg.size := by
    intro p hp
    rw [Finset.mem_range]
    exact hbound p (List.mem_toFinset.mp hp)
  have hdiff : rhoAt (cfg.with_moved_molecule mid P) kv - rhoAt cfg kv
      = ∑ i in Finset.range cfg.size,
          (cfg.charge i : ℂ) *
            (phiAt (eikrFun (cfg.with_moved_molecule mid P)) kv i
              - phiAt (eikrFun cfg) kv i) := by
    unfold rhoAt
    rw [with_moved_size, with_moved_charge, ← Finset.sum_sub_distrib]
    exact Finset.sum_congr rfl (fun i _ => by ring)
  have hvanish : ∀ i ∈ Finset.range cfg.size,
      i ∉ (cfg.molecules.getD mid []).toFinset →
        (cfg.charge i : ℂ) *
            (phiAt (eikrFun (cfg.with_moved_molecule mid P)) kv i
              - phiAt (eikrFun cfg) kv i) = 0 := by
    intro i _ hni
    have hoff := eikrFun_moved_off cfg mid P i (fun h => hni (List.mem_toFinset.mpr h))
    unfold phiAt
    rw [hoff, hoff, hoff]
    ring
  have hrestrict : ∑ i in Finset.range cfg.size,
      (cfg.charge i : ℂ) *
        (phiAt (eikrFun (cfg.with_moved_molecule mid P)) kv i
          - phiAt (eikrFun cfg) kv i)
      = ∑ i in (cfg.molecules.getD mid []).toFinset,
          (cfg.charge i : ℂ) *
            (phiAt (eikrFun (cfg.with_moved_molecule mid P)) kv i
              - phiAt (eikrFun cfg) kv i) :=
    (Finset.sum_subset hsub (fun i hi hni => hvanish i hi hni)).symm
  have hlocal : ∑ i in (cfg.molecules.getD mid []).toFinset,
      (cfg.charge i : ℂ) *
        (phiAt (eikrFun (cfg.with_moved_molecule mid P)) kv i
          - phiAt (eikrFun cfg) kv i)
      = ∑ i in Finset.range (cfg.molecules.getD mid []).length,
          (cfg.charge ((cfg.molecules.getD mid []).getD i 0) : ℂ) *
            (phiAt (newPhaseTable cfg P) kv i
              - phiAt (eikrFun cfg) kv ((cfg.molecules.getD mid []).getD i 0)) := by
    rw [← sum_range_getD (cfg.molecules.getD mid []) hnd]
    refine Finset.sum_congr rfl (fun i hi => ?_)
    have hi2 := Finset.mem_range.mp hi
    have hphi : phiAt (eikrFun (cfg.with_moved_molecule mid P)) kv
        ((cfg.molecules.getD mid []).getD i 0) = phiAt (newPhaseTable cfg P) kv i := by
      unfold phiAt
      rw [eikrFun_moved_hit cfg mid P i hnd hi2, eikrFun_moved_hit cfg mid P i hnd hi2,
        eikrFun_moved_hit cfg mid P i hnd hi2]
    rw [hphi]
  have h := hdiff.trans (hrestrict.trans hlocal)
  exact sub_eq_iff_eq_add'.mp h


/-- With a phase table coherent with the configuration, the stored
delta-rho is, k-point by k-point, the difference between the moved and the
original structure factors. -/
theorem delta_rho_eq (e : Ewald) (cfg : Configuration) (hv : cfg.Valid) (mid : ℕ)
    (hmid : mid < cfg.molecules.length) (P : List Vector3D)
    (heikr : e.eikr = eikrFun cfg) :
    e.delta_rho_move_rigid_molecules cfg mid P
      = e.factors.kvecs.map (fun kv =>
          rhoAt (cfg.with_moved_molecule mid P) kv - rhoAt cfg kv) := by
  unfold Ewald.delta_rho_move_rigid_molecules
  rw [heikr]
  refine List.map_congr_left (fun kv _ => ?_)
  rw [rhoAt_moved cfg hv mid hmid P kv]
  ring

/-- Adding a pointwise difference list to a mapped list gives the shifted
mapped list. -/
theorem zipWith_add_map {α : Type*} (K : List α) (f g : α → ℂ) :
    List.zipWith (fun r d => r + d) (K.map f) (K.map (fun k => g k - f k)) = K.map g := by
  induction K with
  | nil => rfl
  | cons k ks ih =>
    simp only [List.map_cons, List.zipWith_cons_cons, ih]
    congr 1
    ring

/-- Folding a pointwise shift into the structure-factor argument of the
k-space energy sum. -/
theorem zipWith3_shift {α : Type*} (E : List ℝ) (K : List α) (r d : α → ℂ) :
    (zipWith3 (fun f r0 d0 => f * Complex.normSq (r0 + d0)) E (K.map r) (K.map d)).sum
      = (List.zipWith (fun f r0 => f * Complex.normSq r0) E
          (K.map (fun k => r k + d k))).sum := by
  induction E generalizing K with
  | nil => rfl
  | cons f fs ih =>
    cases K with
    | nil => rfl
    | cons k ks =>
      simp only [List.map_cons, zipWith3, List.zipWith_cons_cons, List.sum_cons, ih ks]

/-- Claim C2: after a move cost and a commit, the stored structure factor
is, component by component, what a fresh full recomputation through
eik_dot_r on the moved configuration produces, and the pending updater is
cleared. -/
theorem claim_C2 (e : Ewald) (cfg : Configuration) (mid : ℕ) (P : List Vector3D)
    (hv : cfg.Valid) (hmid : mid < cfg.molecules.length)
    (hprev : e.previous_cell = some cfg.cell)
    (heikr : e.eikr = eikrFun cfg)
    (hrho : e.rho = e.factors.kvecs.map (rhoAt cfg)) :
    ∃ c e2, SharedEwald.move_molecule_cost e cfg mid P = some (c, e2)
      ∧ (SharedEwald.update e2).rho
          = ((SharedEwald.update e2).eik_dot_r (cfg.with_moved_molecule mid P)).rho
      ∧ (SharedEwald.update e2).updater = none := by
  refine ⟨_, _, move_molecule_cost_state e cfg mid P hprev, ?_, rfl⟩
  show List.zipWith (fun r d => r + d) e.rho
      (e.delta_rho_move_rigid_molecules cfg mid P)
    = e.factors.kvecs.map (rhoAt (cfg.with_moved_molecule mid P))
  rw [hrho, delta_rho_eq e cfg hv mid hmid P heikr,
    zipWith_add_map e.factors.kvecs (rhoAt cfg) (rhoAt (cfg.with_moved_molecule mid P))]

/-- With caches coherent with the configuration, the k-space move cost is
exactly the difference of the k-space energies of the moved and the
original configurations. -/
theorem kspace_cost_eq (e : Ewald) (cfg : Configuration) (hv : cfg.Valid) (mid : ℕ)
    (hmid : mid < cfg.molecules.length) (P : List Vector3D)
    (heikr : e.eikr = eikrFun cfg)
    (hrho : e.rho = e.factors.kvecs.map (rhoAt cfg)) :
    (e.kspace_move_molecule_cost cfg mid P).1
      = (e.kspace_energy (cfg.with_moved_molecule mid P)).1 - (e.kspace_energy cfg).1 := by
  unfold Ewald.kspace_move_molecule_cost Ewald.kspace_energy Ewald.eik_dot_r
  simp only
  rw [hrho, delta_rho_eq e cfg hv mid hmid P heikr,
    zipWith3_shift e.factors.energy e.factors.kvecs (rhoAt cfg)
      (fun kv => rhoAt (cfg.with_moved_molecule mid P) kv - rhoAt cfg kv)]
  have hmap : (e.factors.kvecs.map (fun kv =>
      rhoAt cfg kv + (rhoAt (cfg.with_moved_molecule mid P) kv - rhoAt cfg kv)))
      = e.factors.kvecs.map (rhoAt (cfg.with_moved_molecule mid P)) :=
    List.map_congr_left (fun kv _ => by ring)
  rw [hmap]

/-- One unordered-pair contribution to the real-space energy, with the
chargeless-particle skips folded into a single guard. -/
def pairTerm (e : Ewald) (cfg : Configuration) (i j : ℕ) : ℝ :=
  if cfg.charge i = 0 ∨ cfg.charge j = 0 then 0
  else e.real_space_energy_pair (e.restriction.information (cfg.sameMolecule i j))
    (cfg.charge i * cfg.charge j) (cfg.distance i j)

/-- The real-space energy as a sum over the set of index pairs i < j. -/
theorem real_space_energy_pairs (e : Ewald) (cfg : Configuration) :
    e.real_space_energy cfg
      = ∑ p in (Finset.range cfg.size ×ˢ Finset.range cfg.size).filter
          (fun p => p.1 < p.2), pairTerm e cfg p.1 p.2 := by
  rw [Finset.sum_filter, Finset.sum_product]
  unfold Ewald.real_space_energy
  refine Finset.sum_congr rfl (fun i _ => ?_)
  by_cases hi : cfg.charge i = 0
  · rw [if_pos hi]
    symm
    refine Finset.sum_eq_zero (fun j _ => ?_)
    by_cases h : i < j
    · rw [if_pos h]
      unfold pairTerm
      rw [if_pos (Or.inl hi)]
    · rw [if_neg h]
  · rw [if_neg hi]
    have hset : Finset.Ico (i + 1) cfg.size
        = (Finset.range cfg.size).filter (fun j => i < j) := by
      ext j
      simp only [Finset.mem_Ico, Finset.mem_filter, Finset.mem_range]
      omega
    rw [hset, Finset.sum_filter]
    refine Finset.sum_congr rfl (fun j _ => ?_)
    by_cases h : i < j
    · rw [if_pos h, if_pos h]
      unfold pairTerm
      by_cases hj : cfg.charge j = 0
      · rw [if_pos hj, if_pos (Or.inr hj)]
      · rw [if_neg hj, if_neg (by tauto)]
    · rw [if_neg h, if_neg h]

/-- Rounding with ties away from zero is odd. -/
theorem roundAway_neg (t : ℝ) : roundAway (-t) = -roundAway t := by
  unfold roundAway
  rcases lt_trichotomy t 0 with h | h | h
  · rw [if_pos (by linarith), if_neg (by linarith), neg_neg]
  · subst h
    norm_num
  · rw [if_neg (by linarith), if_pos (le_of_lt h), neg_neg]

/-- Negation of a vector difference. -/
theorem vec_sub_neg (a b : Vector3D) : a - b = -(b - a) := by
  show Vector3D.mk (a.x - b.x) (a.y - b.y) (a.z - b.z)
    = Vector3D.mk (-(b.x - a.x)) (-(b.y - a.y)) (-(b.z - a.z))
  congr 1 <;> ring

/-- A matrix applied to a negated vector. -/
theorem mulVec_neg (m : Matrix3) (v : Vector3D) : m.mulVec (-v) = -(m.mulVec v) := by
  show Vector3D.mk _ _ _ = Vector3D.mk _ _ _
  have hx : (-v).x = -v.x := rfl
  have hy : (-v).y = -v.y := rfl
  have hz : (-v).z = -v.z := rfl
  congr 1 <;> rw [hx, hy, hz] <;> simp only [Matrix3.mulVec] <;> ring

/-- Componentwise reduction of a negated vector. -/
theorem fracReduce_neg (w : Vector3D) : fracReduce (-w) = -(fracReduce w) := by
  show Vector3D.mk _ _ _ = Vector3D.mk _ _ _
  have hx : (-w).x = -w.x := rfl
  have hy : (-w).y = -w.y := rfl
  have hz : (-w).z = -w.z := rfl
  congr 1
  · rw [hx, roundAway_neg]
    simp only [fracReduce]
    ring
  · rw [hy, roundAway_neg]
    simp only [fracReduce]
    ring
  · rw [hz, roundAway_neg]
    simp only [fracReduce]
    ring

/-- The nearest-image reduction is odd. -/
theorem vector_image_neg (c : UnitCell) (v : Vector3D) :
    c.vector_image (-v) = -(c.vector_image v) := by
  unfold UnitCell.vector_image
  cases hc : c.shape with
  | Infinite => rfl
  | Orthorhombic =>
    show c.cartesian (fracReduce (c.fractional (-v)))
      = -(c.cartesian (fracReduce (c.fractional v)))
    rw [show c.fractional (-v) = -(c.fractional v) from mulVec_neg _ v, fracReduce_neg]
    exact mulVec_neg _ _
  | Triclinic =>
    show c.cartesian (fracReduce (c.fractional (-v)))
      = -(c.cartesian (fracReduce (c.fractional v)))
    rw [show c.fractional (-v) = -(c.fractional v) from mulVec_neg _ v, fracReduce_neg]
    exact mulVec_neg _ _

/-- The euclidean norm of a negated vector. -/
theorem norm_neg_vec (v : Vector3D) : (-v).norm = v.norm := by
  unfold Vector3D.norm Vector3D.norm2
  congr 1
  have hx : (-v).x = -v.x := rfl
  have hy : (-v).y = -v.y := rfl
  have hz : (-v).z = -v.z := rfl
  simp only [Vector3D.dot, hx, hy, hz]
  ring

/-- The nearest-image distance is symmetric. -/
theorem cell_distance_comm (c : UnitCell) (a b : Vector3D) :
    c.distance a b = c.distance b a := by
  unfold UnitCell.distance
  rw [vec_sub_neg a b, vector_image_neg, norm_neg_vec]

/-- Molecule co-membership is symmetric. -/
theorem sameMolecule_comm (cfg : Configuration) (i j : ℕ) :
    cfg.sameMolecule i j = cfg.sameMolecule j i := by
  unfold Configuration.sameMolecule
  congr 1
  funext mol
  exact Bool.and_comm _ _

/-- The pair contribution is symmetric in the two particles. -/
theorem pairTerm_comm (e : Ewald) (cfg : Configuration) (i j : ℕ) :
    pairTerm e cfg i j = pairTerm e cfg j i := by
  unfold pairTerm
  by_cases h : cfg.charge i = 0 ∨ cfg.charge j = 0
  · rw [if_pos h, if_pos (Or.symm h)]
  · rw [if_neg h, if_neg (fun hc => h (Or.symm hc))]
    rw [sameMolecule_comm, mul_comm,
      show cfg.distance i j = cfg.distance j i from cell_distance_comm _ _ _]

@[simp] theorem with_moved_sameMolecule (cfg : Configuration) (mid : ℕ)
    (P : List Vector3D) :
    (cfg.with_moved_molecule mid P).sameMolecule = cfg.sameMolecule := rfl

/-- A pair fully outside the moved molecule contributes the same in the
moved configuration. -/
theorem pairTerm_moved_off (e : Ewald) (cfg : Configuration) (mid : ℕ)
    (P : List Vector3D) (i j : ℕ) (hi : i ∉ cfg.molecules.getD mid [])
    (hj : j ∉ cfg.molecules.getD mid []) :
    pairTerm e (cfg.with_moved_molecule mid P) i j = pairTerm e cfg i j := by
  unfold pairTerm
  have hd : (cfg.with_moved_molecule mid P).distance i j = cfg.distance i j := by
    unfold Configuration.distance
    rw [with_moved_cell, with_moved_position_off cfg mid P i hi,
      with_moved_position_off cfg mid P j hj]
  rw [with_moved_charge, with_moved_sameMolecule, hd]

/-- A pair fully inside the moved molecule contributes the same in the
moved configuration when the proposed positions preserve the
intra-molecular nearest-image distances. -/
theorem pairTerm_moved_in (e : Ewald) (cfg : Configuration) (mid : ℕ)
    (P : List Vector3D) (hnd : (cfg.molecules.getD mid []).Nodup)
    (hrigid : ∀ i j, i < (cfg.molecules.getD mid []).length →
      j < (cfg.molecules.getD mid []).length →
      cfg.cell.distance (P.getD i Vector3D.zero) (P.getD j Vector3D.zero)
        = cfg.cell.distance (cfg.position ((cfg.molecules.getD mid []).getD i 0))
            (cfg.position ((cfg.molecules.getD mid []).getD j 0)))
    (ia jb : ℕ) (hia : ia < (cfg.molecules.getD mid []).length)
    (hjb : jb < (cfg.molecules.getD mid []).length) :
    pairTerm e (cfg.with_moved_molecule mid P)
        ((cfg.molecules.getD mid []).getD ia 0) ((cfg.molecules.getD mid []).getD jb 0)
      = pairTerm e cfg
          ((cfg.molecules.getD mid []).getD ia 0)
          ((cfg.molecules.getD mid []).getD jb 0) := by
  unfold pairTerm
  have hd : (cfg.with_moved_molecule mid P).distance
      ((cfg.molecules.getD mid []).getD ia 0) ((cfg.molecules.getD mid []).getD jb 0)
      = cfg.distance ((cfg.molecules.getD mid []).getD ia 0)
          ((cfg.molecules.getD mid []).getD jb 0) := by
    unfold Configuration.distance
    rw [with_moved_cell, with_moved_position_hit cfg mid P ia hnd hia,
      with_moved_position_hit cfg mid P jb hnd hjb]
    exact hrigid ia jb hia hjb
  rw [with_moved_charge, with_moved_sameMolecule, hd]

/-- A mixed pair (one particle of the moved molecule at its slot, one
outside) contributes, in the moved configuration, the pair energy at the
proposed position against the unchanged one. -/
theorem pairTerm_moved_mixed (e : Ewald) (cfg : Configuration) (mid : ℕ)
    (P : List Vector3D) (hnd : (cfg.molecules.getD mid []).Nodup)
    (ia : ℕ) (hia : ia < (cfg.molecules.getD mid []).length)
    (b : ℕ) (hb : b ∉ cfg.molecules.getD mid []) :
    pairTerm e (cfg.with_moved_molecule mid P)
        ((cfg.molecules.getD mid []).getD ia 0) b
      = (if cfg.charge ((cfg.molecules.getD mid []).getD ia 0) = 0 ∨ cfg.charge b = 0
         then 0
         else e.real_space_energy_pair
           (e.restriction.information
             (cfg.sameMolecule ((cfg.molecules.getD mid []).getD ia 0) b))
           (cfg.charge ((cfg.molecules.getD mid []).getD ia 0) * cfg.charge b)
           (cfg.cell.distance (P.getD ia Vector3D.zero) (cfg.position b))) := by
  unfold pairTerm
  have hd : (cfg.with_moved_molecule mid P).distance
      ((cfg.molecules.getD mid []).getD ia 0) b
      = cfg.cell.distance (P.getD ia Vector3D.zero) (cfg.position b) := by
    unfold Configuration.distance
    rw [with_moved_cell, with_moved_position_hit cfg mid P ia hnd hia,
      with_moved_position_off cfg mid P b hb]
  rw [with_moved_charge, with_moved_sameMolecule, hd]

/-- The iteration over all particles of all molecules other than the moved
one is the iteration over the particle indices outside the moved
molecule. -/
theorem sum_others {M : Type*} [AddCommMonoid M] (cfg : Configuration)
    (hv : cfg.Valid) (mid : ℕ) (g : ℕ → M) :
    ∑ oid in (Finset.range cfg.molecules.length).filter (fun oid => oid ≠ mid),
        ∑ jx in Finset.range (cfg.molecules.getD oid []).length,
          g ((cfg.molecules.getD oid []).getD jx 0)
      = ∑ b in Finset.range cfg.size \ (cfg.molecules.getD mid []).toFinset, g b := by
  have hstep : ∀ oid ∈ (Finset.range cfg.molecules.length).filter (fun oid => oid ≠ mid),
      ∑ jx in Finset.range (cfg.molecules.getD oid []).length,
          g ((cfg.molecules.getD oid []).getD jx 0)
        = ∑ b in (cfg.molecules.getD oid []).toFinset, g b := by
    intro oid hoid
    exact sum_range_getD _ (hv.nodup oid (Finset.mem_range.mp (Finset.mem_filter.mp hoid).1)) g
  rw [Finset.sum_congr rfl hstep]
  have hdisj : Set.PairwiseDisjoint
      (↑((Finset.range cfg.molecules.length).filter (fun oid => oid ≠ mid)))
      (fun oid => (cfg.molecules.getD oid []).toFinset) := by
    intro x hx y hy hxy
    simp only [Finset.coe_filter, Set.mem_setOf_eq, Finset.mem_range] at hx hy
    refine Finset.disjoint_left.mpr (fun p hp hq => ?_)
    exact hv.disjoint x hx.1 y hy.1 hxy p (List.mem_toFinset.mp hp) (List.mem_toFinset.mp hq)
  rw [← Finset.sum_biUnion hdisj]
  congr 1
  ext b
  simp only [Finset.mem_biUnion, Finset.mem_filter, Finset.mem_range, Finset.mem_sdiff,
    List.mem_toFinset]
  constructor
  · rintro ⟨oid, ⟨holt, hone⟩, hb⟩
    refine ⟨hv.bounded oid holt b hb, fun hmem => ?_⟩
    by_cases hmlt : mid < cfg.molecules.length
    · exact hv.disjoint oid holt mid hmlt hone b hb hmem
    · have : cfg.molecules.getD mid [] = [] := by
        rw [List.getD_eq_default]
        omega
      rw [this] at hmem
      exact (List.not_mem_nil b) hmem
  · rintro ⟨hb, hnmem⟩
    obtain ⟨i, hilt, hmem⟩ := hv.covers b hb
    refine ⟨i, ⟨hilt, fun he => ?_⟩, hmem⟩
    exact hnmem (he ▸ hmem)

/-- The real-space move cost as a double sum over the particles of the
moved molecule and the particles outside it, of the change of the pair
contribution. -/
theorem cost_as_product_sum (e : Ewald) (cfg : Configuration) (hv : cfg.Valid)
    (mid : ℕ) (hmid : mid < cfg.molecules.length) (P : List Vector3D) :
    e.real_space_move_molecule_cost cfg mid P
      = ∑ a in (cfg.molecules.getD mid []).toFinset,
          ∑ b in Finset.range cfg.size \ (cfg.molecules.getD mid []).toFinset,
            (pairTerm e (cfg.with_moved_molecule mid P) a b - pairTerm e cfg a b) := by
  have hnd := hv.nodup mid hmid
  unfold Ewald.real_space_move_molecule_cost
  rw [← sum_range_getD (cfg.molecules.getD mid []) hnd]
  refine Finset.sum_congr rfl (fun ia hia => ?_)
  have hia2 := Finset.mem_range.mp hia
  have hmem : (cfg.molecules.getD mid []).getD ia 0 ∈ cfg.molecules.getD mid [] := by
    rw [List.getD_eq_getElem _ 0 hia2]
    exact List.getElem_mem hia2
  by_cases hqa : cfg.charge ((cfg.molecules.getD mid []).getD ia 0) = 0
  · rw [if_pos hqa]
    symm
    refine Finset.sum_eq_zero (fun b hb => ?_)
    have hbd := (Finset.mem_sdiff.mp hb).2
    rw [pairTerm_moved_mixed e cfg mid P hnd ia hia2 b
        (fun h => hbd (List.mem_toFinset.mpr h))]
    unfold pairTerm
    rw [if_pos (Or.inl hqa), if_pos (Or.inl hqa)]
    ring
  · rw [if_neg hqa]
    rw [sum_others cfg hv mid (fun b =>
      if cfg.charge b = 0 then 0 else
        e.real_space_energy_pair
            (e.restriction.information
              (cfg.sameMolecule ((cfg.molecules.getD mid []).getD ia 0) b))
            (cfg.charge ((cfg.molecules.getD mid []).getD ia 0) * cfg.charge b)
            (cfg.cell.distance (P.getD ia Vector3D.zero) (cfg.position b))
          - e.real_space_energy_pair
            (e.restriction.information
              (cfg.sameMolecule ((cfg.molecules.getD mid []).getD ia 0) b))
            (cfg.charge ((cfg.molecules.getD mid []).getD ia 0) * cfg.charge b)
            (cfg.distance ((cfg.molecules.getD mid []).getD ia 0) b))]
    refine Finset.sum_congr rfl (fun b hb => ?_)
    have hbd := (Finset.mem_sdiff.mp hb).2
    have hboff : b ∉ cfg.molecules.getD mid [] := fun h => hbd (List.mem_toFinset.mpr h)
    rw [pairTerm_moved_mixed e cfg mid P hnd ia hia2 b hboff]
    unfold pairTerm
    by_cases hqb : cfg.charge b = 0
    · rw [if_pos hqb, if_pos (Or.inr hqb), if_pos (Or.inr hqb)]
      ring
    · rw [if_neg hqb, if_neg (by tauto), if_neg (by tauto)]

/-- An entry of a list is reached by an index. -/
theorem mem_getD (l : List ℕ) (a : ℕ) (h : a ∈ l) :
    ∃ i, i < l.length ∧ l.getD i 0 = a := by
  obtain ⟨i, hi, he⟩ := List.mem_iff_getElem.mp h
  exact ⟨i, hi, by rw [List.getD_eq_getElem _ 0 hi]; exact he⟩

/-- The change of the real-space energy under a distance-preserving
molecule move is carried entirely by the mixed pairs, one particle inside
the moved molecule and one outside. -/
theorem energy_diff_product (e : Ewald) (cfg : Configuration) (hv : cfg.Valid)
    (mid : ℕ) (hmid : mid < cfg.molecules.length) (P : List Vector3D)
    (hrigid : ∀ i j, i < (cfg.molecules.getD mid []).length →
      j < (cfg.molecules.getD mid []).length →
      cfg.cell.distance (P.getD i Vector3D.zero) (P.getD j Vector3D.zero)
        = cfg.cell.distance (cfg.position ((cfg.molecules.getD mid []).getD i 0))
            (cfg.position ((cfg.molecules.getD mid []).getD j 0))) :
    e.real_space_energy (cfg.with_moved_molecule mid P) - e.real_space_energy cfg
      = ∑ a in (cfg.molecules.getD mid []).toFinset,
          ∑ b in Finset.range cfg.size \ (cfg.molecules.getD mid []).toFinset,
            (pairTerm e (cfg.with_moved_molecule mid P) a b - pairTerm e cfg a b) := by
  have hnd := hv.nodup mid hmid
  set molF := (cfg.molecules.getD mid []).toFinset with hmolF
  set Δ : ℕ × ℕ → ℝ := fun p =>
    pairTerm e (cfg.with_moved_molecule mid P) p.1 p.2 - pairTerm e cfg p.1 p.2 with hD
  have hsubM : molF ⊆ Finset.range cfg.size := fun a ha =>
    Finset.mem_range.mpr (hv.bounded mid hmid a (List.mem_toFinset.mp ha))
  have hzero_in : ∀ a b : ℕ, a ∈ molF → b ∈ molF → Δ (a, b) = 0 := by
    intro a b ha hb
    obtain ⟨ia, hia, hga⟩ := mem_getD _ a (List.mem_toFinset.mp ha)
    obtain ⟨jb, hjb, hgb⟩ := mem_getD _ b (List.mem_toFinset.mp hb)
    have h := pairTerm_moved_in e cfg mid P hnd hrigid ia jb hia hjb
    rw [hga, hgb] at h
    simp only [hD]
    rw [h]
    ring
  have hzero_out : ∀ a b : ℕ, a ∉ molF → b ∉ molF → Δ (a, b) = 0 := by
    intro a b ha hb
    simp only [hD]
    rw [pairTerm_moved_off e cfg mid P a b (fun h => ha (List.mem_toFinset.mpr h))
      (fun h => hb (List.mem_toFinset.mpr h))]
    ring
  set S := (Finset.range cfg.size ×ˢ Finset.range cfg.size).filter
    (fun p => p.1 < p.2) with hS
  set T := molF ×ˢ (Finset.range cfg.size \ molF) with hT
  have hdiffS : e.real_space_energy (cfg.with_moved_molecule mid P)
      - e.real_space_energy cfg = ∑ p in S, Δ p := by
    rw [real_space_energy_pairs, real_space_energy_pairs, with_moved_size,
      ← Finset.sum_sub_distrib]
  have hsplit1 := Finset.sum_filter_add_sum_filter_not S (fun p => p.1 ∈ molF) Δ
  have hsplit2 := Finset.sum_filter_add_sum_filter_not
    (S.filter (fun p => p.1 ∈ molF)) (fun p => p.2 ∈ molF) Δ
  have hsplit3 := Finset.sum_filter_add_sum_filter_not
    (S.filter (fun p => ¬ p.1 ∈ molF)) (fun p => p.2 ∈ molF) Δ
  have hbothin : ∑ p in (S.filter (fun p => p.1 ∈ molF)).filter (fun p => p.2 ∈ molF),
      Δ p = 0 := by
    refine Finset.sum_eq_zero (fun p hp => ?_)
    have h1 := (Finset.mem_filter.mp (Finset.mem_filter.mp hp).1).2
    have h2 := (Finset.mem_filter.mp hp).2
    exact hzero_in p.1 p.2 h1 h2
  have hbothout : ∑ p in (S.filter (fun p => ¬ p.1 ∈ molF)).filter
      (fun p => ¬ p.2 ∈ molF), Δ p = 0 := by
    refine Finset.sum_eq_zero (fun p hp => ?_)
    have h1 := (Finset.mem_filter.mp (Finset.mem_filter.mp hp).1).2
    have h2 := (Finset.mem_filter.mp hp).2
    exact hzero_out p.1 p.2 h1 h2
  have hmixed12 : (S.filter (fun p => p.1 ∈ molF)).filter (fun p => ¬ p.2 ∈ molF)
      = T.filter (fun q => q.1 < q.2) := by
    ext q
    simp only [hS, hT, Finset.mem_filter, Finset.mem_product, Finset.mem_sdiff,
      Finset.mem_range]
    constructor
    · rintro ⟨⟨⟨⟨hq1, hq2⟩, hlt⟩, hin⟩, hout⟩
      exact ⟨⟨hin, hq2, hout⟩, hlt⟩
    · rintro ⟨⟨hin, hq2, hout⟩, hlt⟩
      exact ⟨⟨⟨⟨Finset.mem_range.mp (hsubM hin), hq2⟩, hlt⟩, hin⟩, hout⟩
  have hmixed21 : ∑ p in (S.filter (fun p => ¬ p.1 ∈ molF)).filter
      (fun p => p.2 ∈ molF), Δ p = ∑ q in T.filter (fun q => ¬ q.1 < q.2), Δ q := by
    refine Finset.sum_bij' (fun p _ => Prod.swap p) (fun q _ => Prod.swap q)
      ?_ ?_ ?_ ?_ ?_
    · intro p hp
      simp only [hS, Finset.mem_filter, Finset.mem_product, Finset.mem_range] at hp
      obtain ⟨⟨⟨⟨hp1, hp2⟩, hlt⟩, hnin⟩, hin⟩ := hp
      simp only [hT, Finset.mem_filter, Finset.mem_product, Finset.mem_sdiff,
        Finset.mem_range, Prod.fst_swap, Prod.snd_swap]
      exact ⟨⟨hin, hp1, hnin⟩, by omega⟩
    · intro q hq
      simp only [hT, Finset.mem_filter, Finset.mem_product, Finset.mem_sdiff,
        Finset.mem_range] at hq
      obtain ⟨⟨hin, hq2, hout⟩, hnlt⟩ := hq
      have hne : q.2 ≠ q.1 := fun h => hout (h ▸ hin)
      simp only [hS, Finset.mem_filter, Finset.mem_product, Finset.mem_range,
        Prod.fst_swap, Prod.snd_swap]
      refine ⟨⟨⟨⟨hq2, Finset.mem_range.mp (hsubM hin)⟩, by omega⟩, hout⟩, hin⟩
    · intro p _
      exact Prod.swap_swap p
    · intro q _
      exact Prod.swap_swap q
    · intro p _
      simp only [hD, Prod.fst_swap, Prod.snd_swap]
      rw [pairTerm_comm e _ p.2 p.1, pairTerm_comm e cfg p.2 p.1]
  have hTsum : ∑ q in T, Δ q
      = ∑ q in T.filter (fun q => q.1 < q.2), Δ q
        + ∑ q in T.filter (fun q => ¬ q.1 < q.2), Δ q :=
    (Finset.sum_filter_add_sum_filter_not T (fun q => q.1 < q.2) Δ).symm
  have htotal : e.real_space_energy (cfg.with_moved_molecule mid P)
      - e.real_space_energy cfg = ∑ q in T, Δ q := by
    rw [hdiffS, ← hsplit1, ← hsplit2, ← hsplit3, hbothin, hbothout, hmixed12,
      hmixed21, hTsum]
    ring
  rw [htotal, hT, Finset.sum_product]

/-- The real-space move cost equals the real-space energy difference for a
distance-preserving move. -/
theorem real_space_cost_eq (e : Ewald) (cfg : Configuration) (hv : cfg.Valid)
    (mid : ℕ) (hmid : mid < cfg.molecules.length) (P : List Vector3D)
    (hrigid : ∀ i j, i < (cfg.molecules.getD mid []).length →
      j < (cfg.molecules.getD mid []).length →
      cfg.cell.distance (P.getD i Vector3D.zero) (P.getD j Vector3D.zero)
        = cfg.cell.distance (cfg.position ((cfg.molecules.getD mid []).getD i 0))
            (cfg.position ((cfg.molecules.getD mid []).getD j 0))) :
    e.real_space_move_molecule_cost cfg mid P
      = e.real_space_energy (cfg.with_moved_molecule mid P)
        - e.real_space_energy cfg := by
  rw [cost_as_product_sum e cfg hv mid hmid P,
    energy_diff_product e cfg hv mid hmid P hrigid]

/-- The value and state of an energy call with a warm cache. -/
theorem energy_state (e : Ewald) (cfg : Configuration)
    (hprev : e.previous_cell = some cfg.cell) :
    SharedEwald.energy e cfg
      = some (e.real_space_energy cfg + e.self_energy cfg + (e.kspace_energy cfg).1,
              (e.kspace_energy cfg).2) := by
  unfold SharedEwald.energy
  rw [precompute_warm e cfg.cell hprev]

/-- Claim C1, amended: on a solver whose caches (previous cell, phase
table and structure factor) are coherent with the configuration, and for
proposed positions that preserve the intra-molecular nearest-image
distances of the moved molecule, the move cost equals the energy
difference between the moved and the original configurations, exactly
over real arithmetic; the same holds separately for the real-space-only
and k-space-only contributions. -/
theorem claim_C1 (e : Ewald) (cfg : Configuration) (mid : ℕ) (P : List Vector3D)
    (hshape : cfg.cell.shape ≠ CellShape.Infinite)
    (hv : cfg.Valid)
    (hmid : mid < cfg.molecules.length)
    (hlen : P.length = (cfg.molecules.getD mid []).length)
    (hprev : e.previous_cell = some cfg.cell)
    (heikr : e.eikr = eikrFun cfg)
    (hrho : e.rho = e.factors.kvecs.map (rhoAt cfg))
    (hrigid : ∀ i j, i < (cfg.molecules.getD mid []).length →
      j < (cfg.molecules.getD mid []).length →
      cfg.cell.distance (P.getD i Vector3D.zero) (P.getD j Vector3D.zero)
        = cfg.cell.distance (cfg.position ((cfg.molecules.getD mid []).getD i 0))
            (cfg.position ((cfg.molecules.getD mid []).getD j 0))) :
    e.real_space_move_molecule_cost cfg mid P
        = e.real_space_energy (cfg.with_moved_molecule mid P)
          - e.real_space_energy cfg
    ∧ (e.kspace_move_molecule_cost cfg mid P).1
        = (e.kspace_energy (cfg.with_moved_molecule mid P)).1
          - (e.kspace_energy cfg).1
    ∧ ∃ c e2 enew snew eold sold,
        SharedEwald.move_molecule_cost e cfg mid P = some (c, e2)
        ∧ SharedEwald.energy e (cfg.with_moved_molecule mid P) = some (enew, snew)
        ∧ SharedEwald.energy e cfg = some (eold, sold)
        ∧ c = enew - eold := by
  have hreal := real_space_cost_eq e cfg hv mid hmid P hrigid
  have hk := kspace_cost_eq e cfg hv mid hmid P heikr hrho
  refine ⟨hreal, hk, _, _, _, _, _, _,
    move_molecule_cost_state e cfg mid P hprev,
    energy_state e (cfg.with_moved_molecule mid P) hprev,
    energy_state e cfg hprev, ?_⟩
  have hself : e.self_energy (cfg.with_moved_molecule mid P) = e.self_energy cfg := rfl
  rw [hreal, hk, hself]
  ring

/-- A concrete configuration for the witnesses: two unit charges bonded
into one molecule in a cubic box of edge 20. -/
def cfgW : Configuration :=
  { cell := UnitCell.cubic 20,
    size := 2,
    charge := fun _ => 1,
    position := fun p => match p with
      | 0 => ⟨0, 0, 0⟩
      | _ => ⟨1, 0, 0⟩,
    molecules := [[0, 1]] }

/-- A solver state whose caches are coherent with the witness
configuration: the phase table of cfgW, an empty k-point list with its
empty structure factor, and the cell of cfgW as the cached cell. -/
def ewaldW : Ewald :=
  { parameters := { alpha := 1, rc := 8, kmax := 10, kmax2 := 0 },
    factors := ⟨[], [], [], []⟩,
    restriction := PairRestriction.InterMolecular,
    eikr := eikrFun cfgW,
    rho := [],
    efield := [],
    previous_cell := some cfgW.cell,
    updater := none }

/-- The witness configuration is a valid partition. -/
theorem cfgW_valid : cfgW.Valid := by
  constructor
  · intro mid hmid
    have h0 : mid = 0 := by
      simp only [cfgW, List.length_cons, List.length_nil] at hmid
      omega
    subst h0
    decide
  · intro mid hmid p hp
    have h0 : mid = 0 := by
      simp only [cfgW, List.length_cons, List.length_nil] at hmid
      omega
    subst h0
    have : p = 0 ∨ p = 1 := by
      simpa [cfgW] using hp
    show p < cfgW.size
    rcases this with h | h <;> subst h <;> decide
  · intro i hi j hj hij p hp
    have h0 : i = 0 := by
      simp only [cfgW, List.length_cons, List.length_nil] at hi
      omega
    have h1 : j = 0 := by
      simp only [cfgW, List.length_cons, List.length_nil] at hj
      omega
    exact absurd (h0.trans h1.symm) hij
  · intro p hp
    have h2 : p < 2 := by
      simpa [cfgW] using hp
    refine ⟨0, by simp [cfgW], ?_⟩
    show p ∈ ([[0, 1]] : List (List ℕ)).getD 0 []
    have : p = 0 ∨ p = 1 := by omega
    rcases this with h | h <;> subst h <;> decide

/-- Witness for the amended claim C1: the coherent solver state on the
witness configuration with a move that keeps both particles in place. -/
theorem claim_C1_witness :
    ewaldW.real_space_move_molecule_cost cfgW 0 [⟨0, 0, 0⟩, ⟨1, 0, 0⟩]
        = ewaldW.real_space_energy (cfgW.with_moved_molecule 0 [⟨0, 0, 0⟩, ⟨1, 0, 0⟩])
          - ewaldW.real_space_energy cfgW
    ∧ (ewaldW.kspace_move_molecule_cost cfgW 0 [⟨0, 0, 0⟩, ⟨1, 0, 0⟩]).1
        = (ewaldW.kspace_energy (cfgW.with_moved_molecule 0 [⟨0, 0, 0⟩, ⟨1, 0, 0⟩])).1
          - (ewaldW.kspace_energy cfgW).1
    ∧ ∃ c e2 enew snew eold sold,
        SharedEwald.move_molecule_cost ewaldW cfgW 0 [⟨0, 0, 0⟩, ⟨1, 0, 0⟩]
          = some (c, e2)
        ∧ SharedEwald.energy ewaldW (cfgW.with_moved_molecule 0 [⟨0, 0, 0⟩, ⟨1, 0, 0⟩])
            = some (enew, snew)
        ∧ SharedEwald.energy ewaldW cfgW = some (eold, sold)
        ∧ c = enew - eold :=
  claim_C1 ewaldW cfgW 0 [⟨0, 0, 0⟩, ⟨1, 0, 0⟩]
    (by simp [cfgW, UnitCell.cubic])
    cfgW_valid
    (by simp [cfgW])
    (by simp [cfgW])
    rfl rfl rfl
    (by
      intro i j hi hj
      have hi2 : i < 2 := by simpa [cfgW] using hi
      have hj2 : j < 2 := by simpa [cfgW] using hj
      interval_cases i <;> interval_cases j <;> rfl)

/-- Witness for claim C2 on the same inputs. -/
theorem claim_C2_witness :
    ∃ c e2, SharedEwald.move_molecule_cost ewaldW cfgW 0 [⟨0, 0, 0⟩, ⟨1, 0, 0⟩]
        = some (c, e2)
      ∧ (SharedEwald.update e2).rho
          = ((SharedEwald.update e2).eik_dot_r
              (cfgW.with_moved_molecule 0 [⟨0, 0, 0⟩, ⟨1, 0, 0⟩])).rho
      ∧ (SharedEwald.update e2).updater = none :=
  claim_C2 ewaldW cfgW 0 [⟨0, 0, 0⟩, ⟨1, 0, 0⟩] cfgW_valid (by simp [cfgW]) rfl rfl rfl

/-- Witness for claim C6 on the witness state with two proposed moves. -/
theorem claim_C6_witness :
    ∃ c1 e1 c2 e2,
      SharedEwald.move_molecule_cost ewaldW cfgW 0 [⟨0, 0, 0⟩, ⟨1, 0, 0⟩]
        = some (c1, e1)
      ∧ SharedEwald.move_molecule_cost e1 cfgW 0 [⟨2, 0, 0⟩, ⟨3, 0, 0⟩]
        = some (c2, e2)
      ∧ e2.updater
          = some (ewaldW.delta_rho_move_rigid_molecules cfgW 0 [⟨2, 0, 0⟩, ⟨3, 0, 0⟩])
      ∧ (SharedEwald.update e2).rho =
          List.zipWith (fun r d => r + d) ewaldW.rho
            (ewaldW.delta_rho_move_rigid_molecules cfgW 0 [⟨2, 0, 0⟩, ⟨3, 0, 0⟩])
      ∧ (SharedEwald.update e2).updater = none :=
  claim_C6 ewaldW cfgW 0 0 [⟨0, 0, 0⟩, ⟨1, 0, 0⟩] [⟨2, 0, 0⟩, ⟨3, 0, 0⟩] rfl

/-- Witness for claim C7 on the witness state. -/
theorem claim_C7_witness :
    ∃ c e2, SharedEwald.move_molecule_cost ewaldW cfgW 0 [⟨2, 0, 0⟩, ⟨3, 0, 0⟩]
        = some (c, e2)
      ∧ e2.rho = ewaldW.rho
      ∧ e2.eikr = ewaldW.eikr
      ∧ e2.factors = ewaldW.factors
      ∧ e2.parameters = ewaldW.parameters
      ∧ e2.restriction = ewaldW.restriction
      ∧ e2.previous_cell = ewaldW.previous_cell
      ∧ e2.efield = ewaldW.efield
      ∧ Option.map Prod.fst (SharedEwald.energy e2 cfgW)
          = Option.map Prod.fst (SharedEwald.energy ewaldW cfgW) :=
  claim_C7 ewaldW cfgW 0 [⟨2, 0, 0⟩, ⟨3, 0, 0⟩] rfl

/-- Strict concavity consequence for the modelled error function: erf at 2
is strictly below twice erf at 1, since the gaussian integrand strictly
decreases on the positive axis. -/
theorem erf_two_lt : erf 2 < 2 * erf 1 := by
  have hcont : Continuous fun t : ℝ => Real.exp (-(t ^ 2)) :=
    Real.continuous_exp.comp (continuous_pow 2).neg
  have hcont2 : Continuous fun t : ℝ => Real.exp (-((t + 1) ^ 2)) :=
    Real.continuous_exp.comp ((continuous_pow 2).comp (continuous_id.add continuous_const)).neg
  have hint : ∀ a b : ℝ,
      IntervalIntegrable (fun t => Real.exp (-(t ^ 2))) MeasureTheory.volume a b :=
    fun a b => hcont.intervalIntegrable a b
  have hint2 : IntervalIntegrable (fun t => Real.exp (-((t + 1) ^ 2)))
      MeasureTheory.volume 0 1 := hcont2.intervalIntegrable 0 1
  have hsplit : ∫ t in (0:ℝ)..2, Real.exp (-(t ^ 2))
      = (∫ t in (0:ℝ)..1, Real.exp (-(t ^ 2)))
        + ∫ t in (1:ℝ)..2, Real.exp (-(t ^ 2)) :=
    (intervalIntegral.integral_add_adjacent_intervals (hint 0 1) (hint 1 2)).symm
  have hshift : ∫ t in (0:ℝ)..1, Real.exp (-((t + 1) ^ 2))
      = ∫ t in (1:ℝ)..2, Real.exp (-(t ^ 2)) := by
    have h := intervalIntegral.integral_comp_add_right
      (a := 0) (b := 1) (fun t => Real.exp (-(t ^ 2))) 1
    norm_num at h
    exact h
  have hpos : 0 < ∫ t in (0:ℝ)..1,
      (Real.exp (-(t ^ 2)) - Real.exp (-((t + 1) ^ 2))) := by
    apply intervalIntegral.intervalIntegral_pos_of_pos_on
    · exact (hint 0 1).sub hint2
    · intro x hx
      have h1 : -((x + 1) ^ 2) < -(x ^ 2) := by nlinarith [hx.1, hx.2]
      have h2 := Real.exp_lt_exp.mpr h1
      linarith
    · norm_num
  have hsub : ∫ t in (0:ℝ)..1,
      (Real.exp (-(t ^ 2)) - Real.exp (-((t + 1) ^ 2)))
      = (∫ t in (0:ℝ)..1, Real.exp (-(t ^ 2)))
        - ∫ t in (0:ℝ)..1, Real.exp (-((t + 1) ^ 2)) :=
    intervalIntegral.integral_sub (hint 0 1) hint2
  have hlt : ∫ t in (1:ℝ)..2, Real.exp (-(t ^ 2))
      < ∫ t in (0:ℝ)..1, Real.exp (-(t ^ 2)) := by
    rw [← hshift]
    rw [hsub] at hpos
    linarith
  have hc : 0 < 2 / Real.sqrt Real.pi := by positivity
  unfold erf
  rw [hsplit]
  nlinarith [hlt, hc]

/-- Rounding zero gives zero. -/
theorem roundAway_zero : roundAway 0 = 0 := by
  unfold roundAway
  rw [if_pos (le_refl 0)]
  norm_num

@[simp] theorem vec_mk_sub (x1 y1 z1 x2 y2 z2 : ℝ) :
    (Vector3D.mk x1 y1 z1) - (Vector3D.mk x2 y2 z2)
      = Vector3D.mk (x1 - x2) (y1 - y2) (z1 - z2) := rfl

@[simp] theorem matrix3_smul_mk (c a11 a12 a13 a21 a22 a23 a31 a32 a33 : ℝ) :
    c • (Matrix3.mk a11 a12 a13 a21 a22 a23 a31 a32 a33)
      = Matrix3.mk (c * a11) (c * a12) (c * a13) (c * a21) (c * a22) (c * a23)
          (c * a31) (c * a32) (c * a33) := rfl

@[simp] theorem matrix3_transposed_mk (a11 a12 a13 a21 a22 a23 a31 a32 a33 : ℝ) :
    (Matrix3.mk a11 a12 a13 a21 a22 a23 a31 a32 a33).transposed
      = Matrix3.mk a11 a21 a31 a12 a22 a32 a13 a23 a33 := rfl

@[simp] theorem matrix3_mulVec_mk (a11 a12 a13 a21 a22 a23 a31 a32 a33 x y z : ℝ) :
    (Matrix3.mk a11 a12 a13 a21 a22 a23 a31 a32 a33).mulVec (Vector3D.mk x y z)
      = Vector3D.mk (a11 * x + a12 * y + a13 * z) (a21 * x + a22 * y + a23 * z)
          (a31 * x + a32 * y + a33 * z) := rfl

@[simp] theorem matrix3_det_mk (a11 a12 a13 a21 a22 a23 a31 a32 a33 : ℝ) :
    (Matrix3.mk a11 a12 a13 a21 a22 a23 a31 a32 a33).det
      = a11 * (a22 * a33 - a23 * a32) - a12 * (a21 * a33 - a23 * a31)
        + a13 * (a21 * a32 - a22 * a31) := rfl

@[simp] theorem fracReduce_mk (x y z : ℝ) :
    fracReduce (Vector3D.mk x y z)
      = Vector3D.mk (x - roundAway x) (y - roundAway y) (z - roundAway z) := rfl

@[simp] theorem vec_mk_norm (x y z : ℝ) :
    (Vector3D.mk x y z).norm = Real.sqrt (x * x + y * y + z * z) := rfl

/-- The nearest-image distance along one axis of the cubic cell of edge
20, for non-negative separations below half the edge. -/
theorem cubic20_dist (d : ℝ) (h0 : 0 ≤ d) (hd : d < 10) :
    (UnitCell.cubic 20).distance ⟨0, 0, 0⟩ ⟨d, 0, 0⟩ = d := by
  have hround : roundAway (d / 20) = 0 := by
    unfold roundAway
    rw [if_pos (by positivity)]
    rw [show ⌊d / 20 + 1 / 2⌋ = 0 from ?_]
    · norm_num
    · rw [Int.floor_eq_zero_iff, Set.mem_Ico]
      constructor
      · positivity
      · linarith
  have h1 : (UnitCell.cubic 20).fractional
      ((⟨d, 0, 0⟩ : Vector3D) - ⟨0, 0, 0⟩) = ⟨d / 20, 0, 0⟩ := by
    unfold UnitCell.fractional UnitCell.cubic Matrix3.inverse
    simp only [vec_mk_sub, matrix3_transposed_mk, matrix3_det_mk, matrix3_smul_mk,
      matrix3_mulVec_mk]
    norm_num
    ring
  have h2 : fracReduce (⟨d / 20, 0, 0⟩ : Vector3D) = ⟨d / 20, 0, 0⟩ := by
    simp only [fracReduce_mk, hround, roundAway_zero]
    norm_num
  have h3 : (UnitCell.cubic 20).cartesian ⟨d / 20, 0, 0⟩ = ⟨d, 0, 0⟩ := by
    unfold UnitCell.cartesian UnitCell.cubic
    simp only [matrix3_transposed_mk, matrix3_mulVec_mk]
    norm_num
    ring
  have h4 : (⟨d, 0, 0⟩ : Vector3D).norm = d := by
    rw [vec_mk_norm]
    rw [show d * d + 0 * 0 + 0 * 0 = d * d by ring]
    exact Real.sqrt_mul_self h0
  show ((UnitCell.cubic 20).cartesian (fracReduce ((UnitCell.cubic 20).fractional
      ((⟨d, 0, 0⟩ : Vector3D) - ⟨0, 0, 0⟩)))).norm = d
  rw [h1, h2, h3, h4]

/-- The real-space energy of the witness configuration: one excluded pair
of unit charges at distance 1. -/
theorem ewaldW_energy_old : ewaldW.real_space_energy cfgW = -erf 1 := by
  have hq1 : ¬ (1:ℝ) = 0 := by norm_num
  have hdist : cfgW.distance 0 1 = 1 := by
    show (UnitCell.cubic 20).distance ⟨0, 0, 0⟩ ⟨1, 0, 0⟩ = 1
    exact cubic20_dist 1 (by norm_num) (by norm_num)
  have hI1 : Finset.Ico (0 + 1) 2 = {1} := by decide
  have hI2 : Finset.Ico (1 + 1) 2 = ∅ := by decide
  unfold Ewald.real_space_energy
  rw [show cfgW.size = 2 from rfl]
  rw [Finset.sum_range_succ, Finset.sum_range_succ, Finset.sum_range_zero]
  rw [show cfgW.charge 0 = 1 from rfl, show cfgW.charge 1 = 1 from rfl]
  rw [hI1, hI2, Finset.sum_empty, Finset.sum_singleton]
  rw [show cfgW.charge 1 = 1 from rfl]
  rw [if_neg hq1, if_neg hq1, if_neg hq1]
  rw [show cfgW.sameMolecule 0 1 = true from rfl]
  rw [show ewaldW.restriction.information true = RestrictionInfo.mk true 1 from rfl]
  rw [hdist]
  unfold Ewald.real_space_energy_pair
  rw [if_neg (show ¬ (1:ℝ) > ewaldW.parameters.rc by norm_num [ewaldW])]
  rw [if_neg (show ¬ (RestrictionInfo.mk true (1:ℝ)).excluded = false by decide)]
  rw [show ewaldW.parameters.alpha = 1 from rfl]
  norm_num [FOUR_PI_EPSILON_0]

/-- The real-space energy of the witness configuration after stretching
the molecule to distance 2. -/
theorem ewaldW_energy_new :
    ewaldW.real_space_energy (cfgW.with_moved_molecule 0 [⟨0, 0, 0⟩, ⟨2, 0, 0⟩])
      = -(erf 2) / 2 := by
  have hq1 : ¬ (1:ℝ) = 0 := by norm_num
  have hdist : (cfgW.with_moved_molecule 0 [⟨0, 0, 0⟩, ⟨2, 0, 0⟩]).distance 0 1 = 2 := by
    show (UnitCell.cubic 20).distance ⟨0, 0, 0⟩ ⟨2, 0, 0⟩ = 2
    exact cubic20_dist 2 (by norm_num) (by norm_num)
  have hI1 : Finset.Ico (0 + 1) 2 = {1} := by decide
  have hI2 : Finset.Ico (1 + 1) 2 = ∅ := by decide
  unfold Ewald.real_space_energy
  rw [show (cfgW.with_moved_molecule 0 [⟨0, 0, 0⟩, ⟨2, 0, 0⟩]).size = 2 from rfl]
  rw [Finset.sum_range_succ, Finset.sum_range_succ, Finset.sum_range_zero]
  rw [show (cfgW.with_moved_molecule 0 [⟨0, 0, 0⟩, ⟨2, 0, 0⟩]).charge 0 = 1 from rfl,
    show (cfgW.with_moved_molecule 0 [⟨0, 0, 0⟩, ⟨2, 0, 0⟩]).charge 1 = 1 from rfl]
  rw [hI1, hI2, Finset.sum_empty, Finset.sum_singleton]
  rw [show (cfgW.with_moved_molecule 0 [⟨0, 0, 0⟩, ⟨2, 0, 0⟩]).charge 1 = 1 from rfl]
  rw [if_neg hq1, if_neg hq1, if_neg hq1]
  rw [show (cfgW.with_moved_molecule 0 [⟨0, 0, 0⟩, ⟨2, 0, 0⟩]).sameMolecule 0 1 = true
    from rfl]
  rw [show ewaldW.restriction.information true = RestrictionInfo.mk true 1 from rfl]
  rw [hdist]
  unfold Ewald.real_space_energy_pair
  rw [if_neg (show ¬ (2:ℝ) > ewaldW.parameters.rc by norm_num [ewaldW])]
  rw [if_neg (show ¬ (RestrictionInfo.mk true (1:ℝ)).excluded = false by decide)]
  rw [show ewaldW.parameters.alpha = 1 from rfl]
  norm_num [FOUR_PI_EPSILON_0]

/-- The real-space move cost of stretching the single molecule: there is
no other molecule, so the cost is zero. -/
theorem ewaldW_cost_zero :
    ewaldW.real_space_move_molecule_cost cfgW 0 [⟨0, 0, 0⟩, ⟨2, 0, 0⟩] = 0 := by
  have hf : (Finset.range cfgW.molecules.length).filter (fun oid => oid ≠ 0) = ∅ := by
    refine Finset.filter_eq_empty_iff.mpr (fun x hx => ?_)
    have : x = 0 := by
      have := Finset.mem_range.mp hx
      simp only [cfgW, List.length_cons, List.length_nil] at this
      omega
    simp [this]
  unfold Ewald.real_space_move_molecule_cost
  rw [hf]
  simp

/-- Claim C1, counterexample: for a proposed position list that stretches
the single two-particle molecule from distance 1 to distance 2 (a valid
move request: finite cell, valid molecule index, matching length), the
real-space move cost is zero while the real-space energy difference is
not, so the claimed equality for arbitrary new positions fails. -/
theorem claim_C1_counterexample :
    cfgW.cell.shape ≠ CellShape.Infinite
    ∧ 0 < cfgW.molecules.length
    ∧ ([⟨0, 0, 0⟩, ⟨2, 0, 0⟩] : List Vector3D).length
        = (cfgW.molecules.getD 0 []).length
    ∧ ewaldW.real_space_move_molecule_cost cfgW 0 [⟨0, 0, 0⟩, ⟨2, 0, 0⟩]
        ≠ ewaldW.real_space_energy (cfgW.with_moved_molecule 0 [⟨0, 0, 0⟩, ⟨2, 0, 0⟩])
          - ewaldW.real_space_energy cfgW := by
  refine ⟨by simp [cfgW, UnitCell.cubic], by simp [cfgW], by simp [cfgW], ?_⟩
  rw [ewaldW_cost_zero, ewaldW_energy_new, ewaldW_energy_old]
  intro h
  have h2 := erf_two_lt
  have h3 : erf 2 = 2 * erf 1 := by linarith
  linarith

/-- Witness for claim C10 at the concrete base solver state. -/
theorem claim_C10_witness :
    (SharedEwald.clone ewald0).updater = none
    ∧ (SharedEwald.update (SharedEwald.clone ewald0)).rho = (SharedEwald.clone ewald0).rho
    ∧ (SharedEwald.clone ewald0).parameters = ewald0.parameters
    ∧ (SharedEwald.clone ewald0).factors = ewald0.factors
    ∧ (SharedEwald.clone ewald0).restriction = ewald0.restriction
    ∧ (SharedEwald.clone ewald0).eikr = ewald0.eikr
    ∧ (SharedEwald.clone ewald0).rho = ewald0.rho
    ∧ (SharedEwald.clone ewald0).efield = ewald0.efield
    ∧ (SharedEwald.clone ewald0).previous_cell = ewald0.previous_cell :=
  claim_C10 ewald0
